import Mathlib

/- Verification development for the gots transport-stream PSI/PMT core
   (package psi, file pmt.go), over a shallow embedding in Lean.

   Bytes are modelled as natural numbers and byte buffers as `List Nat`.
   Go slices are modelled with capacity equal to length, so slicing or
   indexing past the end of a buffer is a runtime fault. Fallible Go code
   returns values in `GoR`, whose `crash` constructor models a Go runtime
   panic (out-of-bounds index or slice, nil dereference). -/

/-- Error values of the gots error set, as used by pmt.go. The missing-PID
error carries the PID list that the Go code formats into its message. -/
inductive GErr where
  | errPMTParse
  | errParsePMTDescriptor
  | errShortPayload
  | errNoPayload
  | errPIDNotInPMT (missing : List Nat)
  | errNilPAT
  | errPMTNotFound
  | errAccumulatorDone
deriving DecidableEq, Repr

/-- Result of running a piece of Go code: a returned value, a returned error,
or a runtime fault (out-of-bounds access or nil dereference). -/
inductive GoR (α : Type) where
  | ok : α → GoR α
  | errv : GErr → GoR α
  | crash : GoR α
deriving DecidableEq, Repr

/-- Go slice expression `b[lo:hi]`; use sites check `hi ≤ b.length` (the
capacity-equals-length model) before taking the slice. -/
def goSlice (b : List Nat) (lo hi : Nat) : List Nat := (b.take hi).drop lo

/-- Modelled from the spec: wire layout (§6). The 12-bit section length of a
section buffer `b` that begins at its table id: the low 4 bits of `b[1]`
followed by all of `b[2]` (source helper `sectionLength` of the psi package,
which is not under src/). Every call site establishes `2 < b.length`, which
is what the Go code needs for the two reads not to fault. -/
def sectionLength (b : List Nat) : Nat := ((b.getD 1 0) &&& 0x0f) <<< 8 ||| b.getD 2 0

/-- Modelled from the spec: wire layout (§6). The pointer field is the first
byte of a PSI payload (source helper `PointerField`, not under src/); reading
it from an empty buffer is an out-of-bounds fault. -/
def PointerField (b : List Nat) : GoR Nat :=
  match b.get? 0 with
  | some v => .ok v
  | none => .crash

/-- Modelled from the spec: wire layout (§6). Public `SectionLength` of the
psi package (not under src/): the section length of the section that starts
after the pointer field, `sectionLength(psi[1+PointerField(psi):])`, faulting
when the pointer field or the two length bytes lie outside the buffer. -/
def SectionLength (b : List Nat) : GoR Nat :=
  match b.get? 0 with
  | none => .crash
  | some pf =>
    if 1 + pf ≤ b.length then
      let rest := b.drop (1 + pf)
      if 2 < rest.length then .ok (sectionLength rest) else .crash
    else .crash

/-- Big-endian 32-bit read of a 4-byte buffer (binary.BigEndian.Uint32). -/
def beU32 (l : List Nat) : Nat := l.foldl (fun a b => a * 256 + b) 0

/-- Section scan of PmtAccumulatorDoneFunc (pmt.go lines 83-89): walk
concatenated sections while at least 3 bytes remain and the next byte is not
the stuffing marker 0xFF; report not-done when a section's declared length
plus 3 bytes is not yet contained in the remaining buffer. -/
def scanSections (s : List Nat) : Bool :=
  if h : 2 < s.length ∧ s.getD 0 0 ≠ 0xFF then
    if s.length < sectionLength s + 3 then false
    else scanSections (s.drop (3 + sectionLength s))
  else true
termination_by s.length
decreasing_by simp only [List.length_drop]; omega

/-- PmtAccumulatorDoneFunc (pmt.go lines 72-92): the PMT completion predicate
fed to the packet accumulator. -/
def PmtAccumulatorDoneFunc (b : List Nat) : Bool × Option GErr :=
  if b.length < 1 then (false, none)
  else if b.length < 1 + b.getD 0 0 then (false, none)
  else (scanSections (b.drop (1 + b.getD 0 0)), none)

/-- Section scan of the completion predicate as the specification words it
(§4.2): written from the spec for refinement comparison with `scanSections`. -/
def pmtDoneSpecScan (s : List Nat) : Bool :=
  if h : 3 ≤ s.length ∧ s.getD 0 0 ≠ 0xFF then
    if s.length < sectionLength s + 3 then false
    else pmtDoneSpecScan (s.drop (3 + sectionLength s))
  else true
termination_by s.length
decreasing_by simp only [List.length_drop]; omega

/-- The completion predicate as the specification words it (§4.2), written
from the spec's words for refinement comparison with the implementation. -/
def pmtDoneSpec (b : List Nat) : Bool :=
  if b.length < 1 then false
  else if b.length < 1 + b.getD 0 0 then false
  else pmtDoneSpecScan (b.drop (1 + b.getD 0 0))

theorem scanSections_eq_spec (s : List Nat) : scanSections s = pmtDoneSpecScan s := by
  rw [scanSections, pmtDoneSpecScan]
  by_cases h : 2 < s.length ∧ s.getD 0 0 ≠ 0xFF
  · have h' : 3 ≤ s.length ∧ s.getD 0 0 ≠ 0xFF := ⟨h.1, h.2⟩
    rw [dif_pos h, dif_pos h']
    by_cases hlt : s.length < sectionLength s + 3
    · rw [if_pos hlt, if_pos hlt]
    · rw [if_neg hlt, if_neg hlt]
      exact scanSections_eq_spec _
  · have h' : ¬(3 ≤ s.length ∧ s.getD 0 0 ≠ 0xFF) := by
      intro hc; exact h ⟨hc.1, hc.2⟩
    rw [dif_neg h, dif_neg h']
termination_by s.length
decreasing_by simp only [List.length_drop]; omega

/-- C2: for every byte buffer, PmtAccumulatorDoneFunc returns exactly the
done verdict described by the specification (not done on a buffer shorter
than 1 byte or shorter than 1 plus the pointer-field value, not done when a
scanned section's declared 12-bit length plus 3 bytes is not yet contained,
done when the scan stops at a stuffing byte or with fewer than 3 bytes
remaining) and it never returns a non-nil error. -/
theorem pmtAccumulatorDoneFunc_matches_spec (b : List Nat) :
    PmtAccumulatorDoneFunc b = (pmtDoneSpec b, none) := by
  unfold PmtAccumulatorDoneFunc pmtDoneSpec
  by_cases h1 : b.length < 1
  · rw [if_pos h1, if_pos h1]
  · rw [if_neg h1, if_neg h1]
    by_cases h2 : b.length < 1 + b.getD 0 0
    · rw [if_pos h2, if_pos h2]
    · rw [if_neg h2, if_neg h2, scanSections_eq_spec]

/-- A parsed PMT descriptor: tag plus payload bytes (NewPmtDescriptor). -/
structure PmtDescriptor where
  tag : Nat
  data : List Nat
deriving DecidableEq, Repr

/-- A parsed PMT elementary stream (NewPmtElementaryStream): stream type,
13-bit elementary PID, and the nested descriptor list. -/
structure PmtElementaryStream where
  streamType : Nat
  elementaryPid : Nat
  descriptors : List PmtDescriptor
deriving DecidableEq, Repr

/-- The pmt struct of pmt.go: parallel PID list and elementary-stream list,
plus the version/current-next header fields. -/
structure Pmt where
  pids : List Nat
  elementaryStreams : List PmtElementaryStream
  versionNumber : Nat
  currentNextIndicator : Bool
deriving DecidableEq, Repr

/-- Descriptor walk of parsePMTSection (pmt.go lines 152-167): read tag and
length, fail with the descriptor-parse error unless the payload's end offset
is strictly below the buffer length, otherwise slice the payload and advance.
Reads are batched behind one bounds guard; a Go out-of-bounds fault on any of
the two header reads is the single `crash` outcome either way. -/
def descLoop (b : List Nat) (offset il : Nat) (dOff : Nat) (acc : List PmtDescriptor) :
    GoR (List PmtDescriptor) :=
  if h : dOff < il then
    if hr : offset + dOff + 1 < b.length then
      if offset + dOff + 2 + b.getD (offset + dOff + 1) 0 < b.length then
        descLoop b offset il (dOff + 2 + b.getD (offset + dOff + 1) 0)
          (acc ++ [⟨b.getD (offset + dOff) 0,
            goSlice b (offset + dOff + 2) (offset + dOff + 2 + b.getD (offset + dOff + 1) 0)⟩])
      else .errv .errParsePMTDescriptor
    else .crash
  else .ok acc
termination_by il - dOff
decreasing_by omega

/-- Elementary-stream walk of parsePMTSection (pmt.go lines 142-172): while
the offset is below the uint16 bound `4 + section_length - 5 - 4`, read the
static five bytes, then parse the nested descriptor block only when the
declared ES-info length is nonzero and `infoLength + offset` is below the
buffer length (otherwise the block is skipped and the offset does not advance
past it). Offsets use plain naturals: on every recursive path the reads'
bounds guard keeps them below the buffer length plus 5, so for any buffer a
parseTables call can pass (at most 3 + 4095 bytes) this agrees with Go's
uint16 arithmetic. -/
def esLoop (b : List Nat) (bound : Nat) (offset : Nat)
    (pids : List Nat) (streams : List PmtElementaryStream) :
    GoR (List Nat × List PmtElementaryStream) :=
  if h : offset < bound then
    if hr : offset + 4 < b.length then
      if (((b.getD (offset + 3) 0) &&& 0x0f) <<< 8 ||| b.getD (offset + 4) 0) ≠ 0
          ∧ (((b.getD (offset + 3) 0) &&& 0x0f) <<< 8 ||| b.getD (offset + 4) 0) + (offset + 5)
            < b.length then
        match descLoop b (offset + 5)
            (((b.getD (offset + 3) 0) &&& 0x0f) <<< 8 ||| b.getD (offset + 4) 0) 0 [] with
        | .ok ds =>
          esLoop b bound
            (offset + 5 + (((b.getD (offset + 3) 0) &&& 0x0f) <<< 8 ||| b.getD (offset + 4) 0))
            (pids ++ [((b.getD (offset + 1) 0) &&& 0x1f) <<< 8 ||| b.getD (offset + 2) 0])
            (streams ++ [⟨b.getD offset 0,
              ((b.getD (offset + 1) 0) &&& 0x1f) <<< 8 ||| b.getD (offset + 2) 0, ds⟩])
        | .errv e => .errv e
        | .crash => .crash
      else
        esLoop b bound (offset + 5)
          (pids ++ [((b.getD (offset + 1) 0) &&& 0x1f) <<< 8 ||| b.getD (offset + 2) 0])
          (streams ++ [⟨b.getD offset 0,
            ((b.getD (offset + 1) 0) &&& 0x1f) <<< 8 ||| b.getD (offset + 2) 0, []⟩])
    else .crash
  else .ok (pids, streams)
termination_by bound - offset
decreasing_by all_goals omega

/-- parsePMTSection (pmt.go lines 123-177). The section length is read before
the short-section check, so a buffer of fewer than 3 bytes faults. The
version/CNI extraction is modelled from the spec (§6 wire layout: the
reserved/version/CNI byte sits at offset 5 of the section; the source helper
tableVersionAndCNI is not under src/). The loop bound
`PSIHeaderLen + sectionLength - pmtEsDescriptorStaticLen - CrcLen` is uint16
arithmetic and wraps when section_length < 5. -/
def parsePMTSection (pmtBytes : List Nat) : GoR Pmt :=
  if 2 < pmtBytes.length then
    if pmtBytes.length ≤ 11 then .errv .errPMTParse
    else
      match esLoop pmtBytes
          (if 5 ≤ sectionLength pmtBytes then sectionLength pmtBytes - 5
           else sectionLength pmtBytes + 65531)
          (12 + (((pmtBytes.getD 10 0) &&& 0x0f) <<< 8 ||| pmtBytes.getD 11 0)) [] [] with
      | .ok (pids, streams) =>
        .ok ⟨pids, streams, ((pmtBytes.getD 5 0) &&& 0x3e) >>> 1,
          (pmtBytes.getD 5 0) &&& 1 == 1⟩
      | .errv e => .errv e
      | .crash => .crash
  else .crash

/-- parseTables (pmt.go lines 105-121): iterate concatenated sections until a
stuffing byte or fewer than 3 bytes remain; parse table-id-2 sections
(last section wins), skip others. The slice `sectionBytes[0 : 3+tableLength]`
(and the unconditional reslice past the section) is taken without a bounds
check, so a section length that overruns the buffer is a fault, not an error.
The table id is byte 0 of the section (source helper tableID, modelled from
the spec's wire layout, §6). -/
def parseTables (s : List Nat) (acc : Pmt) : GoR Pmt :=
  if h : 2 < s.length ∧ s.getD 0 0 ≠ 0xFF then
    if hfit : 3 + sectionLength s ≤ s.length then
      if s.getD 0 0 = 2 then
        match parsePMTSection (s.take (3 + sectionLength s)) with
        | .ok p => parseTables (s.drop (3 + sectionLength s)) p
        | .errv e => .errv e
        | .crash => .crash
      else parseTables (s.drop (3 + sectionLength s)) acc
    else .crash
  else .ok acc
termination_by s.length
decreasing_by all_goals (simp only [List.length_drop]; omega)

/-- NewPMT (pmt.go lines 96-103): strip the pointer field (an empty buffer or
a pointer field that runs past the end faults) and parse the tables, starting
from the zero-valued pmt struct. -/
def NewPMT (pmtBytes : List Nat) : GoR Pmt :=
  match pmtBytes.get? 0 with
  | none => .crash
  | some pf =>
    if 1 + pf ≤ pmtBytes.length then
      parseTables (pmtBytes.drop (1 + pf)) ⟨[], [], 0, false⟩
    else .crash

/-- PIDExists (pmt.go lines 244-251): membership in the parallel PID list. -/
def Pmt.PIDExists (p : Pmt) (pid : Nat) : Bool := p.pids.contains pid

/-- One pass of the removal loop of RemoveElementaryStreams: drop the first
stream whose elementary PID matches (the Go loop breaks after one removal). -/
def removeFirstStream (pid : Nat) : List PmtElementaryStream → List PmtElementaryStream
  | [] => []
  | s :: rest => if s.elementaryPid = pid then rest else s :: removeFirstStream pid rest

/-- RemoveElementaryStreams (pmt.go lines 200-217): remove, for each given
PID, the first matching elementary stream, then rebuild the PID list from the
remaining streams. -/
def Pmt.RemoveElementaryStreams (p : Pmt) (removePids : List Nat) : Pmt :=
  let streams := removePids.foldl (fun ss pid => removeFirstStream pid ss) p.elementaryStreams
  { p with elementaryStreams := streams, pids := streams.map (·.elementaryPid) }

/-- CanBuildPMT (pmt.go lines 271-276): the payload must be at least as long
as the declared section length. -/
def CanBuildPMT (payload : List Nat) (sLen : Nat) : Bool := !(payload.length < sLen)

/-- ExtractCRC (pmt.go lines 253-269): require 4 bytes, read the declared
section length, bounds-check it with CanBuildPMT, then slice the 4 bytes
ending at offset `PSIHeaderLen + sectionLength` as a big-endian uint32. The
slice itself is only guarded by CanBuildPMT, so it can fault. -/
def ExtractCRC (payload : List Nat) : GoR Nat :=
  if payload.length < 4 then .errv .errShortPayload
  else
    match SectionLength payload with
    | .crash => .crash
    | .errv e => .errv e
    | .ok sLen =>
      if !(CanBuildPMT payload sLen) then .errv .errPMTParse
      else
        if 4 + sLen ≤ payload.length then
          .ok (beU32 (goSlice payload (4 + sLen - 4) (4 + sLen)))
        else .crash

/-- Modelled from the spec: CRC-32 (§3, §6): standard ISO/IEC 13818-1 CRC-32
(source helper gots.ComputeCRC, not under src/): 32-bit register initialised
to all ones, polynomial 0x04C11DB7, bytes processed MSB first, no final
inversion. One register shift step: -/
def crcShift (c : Nat) : Nat :=
  if c &&& 0x80000000 ≠ 0 then ((c <<< 1) ^^^ 0x04C11DB7) &&& 0xFFFFFFFF
  else (c <<< 1) &&& 0xFFFFFFFF

/-- CRC-32 register update for one input byte. -/
def crc32Byte (c b : Nat) : Nat := crcShift^[8] (c ^^^ ((b &&& 0xFF) <<< 24))

/-- CRC-32 of a byte buffer. -/
def crc32 (bs : List Nat) : Nat := bs.foldl crc32Byte 0xFFFFFFFF

/-- Modelled from the spec: gots.ComputeCRC returns the 4 CRC bytes in
big-endian order (§6 trailer layout). -/
def ComputeCRC (bs : List Nat) : List Nat :=
  [(crc32 bs >>> 24) &&& 0xFF, (crc32 bs >>> 16) &&& 0xFF,
   (crc32 bs >>> 8) &&& 0xFF, crc32 bs &&& 0xFF]

theorem ComputeCRC_length (bs : List Nat) : (ComputeCRC bs).length = 4 := rfl

/-- Serialized bytes of one descriptor: tag, length, payload (§3, §6). -/
def descBytes (d : PmtDescriptor) : List Nat := [d.tag, d.data.length] ++ d.data

/-- Serialized descriptor block of one elementary stream. -/
def esInfoBytes (e : PmtElementaryStream) : List Nat := (e.descriptors.map descBytes).flatten

/-- Serialized bytes of one elementary-stream entry (§6 wire layout):
stream_type, reserved(3)+PID(13), reserved(4)+ES_info_length(12),
descriptor block. -/
def esBytes (e : PmtElementaryStream) : List Nat :=
  [e.streamType, 0xE0 ||| (e.elementaryPid >>> 8), e.elementaryPid % 256,
   0xF0 ||| ((esInfoBytes e).length >>> 8), (esInfoBytes e).length % 256] ++ esInfoBytes e

/-- Serialized elementary-stream region of a PMT section. -/
def esRegion (streams : List PmtElementaryStream) : List Nat := (streams.map esBytes).flatten

/-- Canonical PMT section minus its trailing CRC (§6 wire layout): table id 2,
reserved bits + 12-bit section length, program number, reserved + version +
current/next byte, section number and last section number 0, PCR PID,
program-info length and bytes, then the elementary-stream region.
section_length counts everything after the length field including the CRC. -/
def sectionNoCRC (ver : Nat) (cni : Bool) (progNum pcrPid : Nat) (progInfo : List Nat)
    (streams : List PmtElementaryStream) : List Nat :=
  let S := 13 + progInfo.length + (esRegion streams).length
  [0x02, 0xB0 ||| (S >>> 8), S % 256,
   (progNum >>> 8) % 256, progNum % 256,
   0xC0 ||| (ver <<< 1) ||| (if cni then 1 else 0),
   0, 0,
   0xE0 ||| ((pcrPid >>> 8) &&& 0x1f), pcrPid % 256,
   0xF0 ||| (progInfo.length >>> 8), progInfo.length % 256] ++ progInfo ++ esRegion streams

/-- Canonical full PMT section: body plus valid CRC. -/
def pmtSection (ver : Nat) (cni : Bool) (progNum pcrPid : Nat) (progInfo : List Nat)
    (streams : List PmtElementaryStream) : List Nat :=
  sectionNoCRC ver cni progNum pcrPid progInfo streams ++
    ComputeCRC (sectionNoCRC ver cni progNum pcrPid progInfo streams)

/-- Canonical PMT payload buffer: zero pointer field then one PMT section. -/
def pmtBuf (ver : Nat) (cni : Bool) (progNum pcrPid : Nat) (progInfo : List Nat)
    (streams : List PmtElementaryStream) : List Nat :=
  0x00 :: pmtSection ver cni progNum pcrPid progInfo streams

/-- Well-formed descriptor: tag and declared length fit in one byte. -/
def WFDescriptor (d : PmtDescriptor) : Prop := d.tag < 256 ∧ d.data.length ≤ 255

/-- Well-formed elementary stream: byte-sized stream type, 13-bit PID,
12-bit ES-info length, well-formed descriptors. -/
def WFStream (e : PmtElementaryStream) : Prop :=
  e.streamType < 256 ∧ e.elementaryPid < 8192 ∧ (esInfoBytes e).length ≤ 4095 ∧
    ∀ d ∈ e.descriptors, WFDescriptor d

/-- Well-formed PMT body: 12-bit program-info length, 12-bit section length,
well-formed streams. -/
def WFBody (progInfo : List Nat) (streams : List PmtElementaryStream) : Prop :=
  progInfo.length ≤ 4095 ∧
    13 + progInfo.length + (esRegion streams).length ≤ 4095 ∧
    ∀ e ∈ streams, WFStream e

instance (d : PmtDescriptor) : Decidable (WFDescriptor d) := by
  unfold WFDescriptor; infer_instance

instance (e : PmtElementaryStream) : Decidable (WFStream e) := by
  unfold WFStream; infer_instance

instance (progInfo : List Nat) (streams : List PmtElementaryStream) :
    Decidable (WFBody progInfo streams) := by
  unfold WFBody; infer_instance

theorem or_pow_add (n a b : Nat) (h : b < 2 ^ n) : (a <<< n) ||| b = 2 ^ n * a + b := by
  apply Nat.eq_of_testBit_eq
  intro k
  rw [Nat.testBit_lor, Nat.shiftLeft_eq, Nat.mul_comm a (2 ^ n),
    Nat.testBit_mul_pow_two, Nat.testBit_mul_pow_two_add _ h]
  rcases Nat.lt_or_ge k n with hk | hk
  · simp [hk, Nat.not_le.mpr hk]
  · simp [hk, Nat.not_lt.mpr hk,
      Nat.testBit_eq_false_of_lt (Nat.lt_of_lt_of_le h (Nat.pow_le_pow_right (by omega) hk))]

/-- Recombining the high and low byte of a value recovers it. -/
theorem shift_or_mod (S : Nat) : ((S >>> 8) <<< 8) ||| (S % 256) = S := by
  rw [or_pow_add 8 _ _ (by omega), Nat.shiftRight_eq_div_pow]
  omega

theorem mask_b0 {h : Nat} (hh : h < 16) : (0xB0 ||| h) &&& 0x0f = h := by
  have : ∀ x < 16, (0xB0 ||| x) &&& 0x0f = x := by decide
  exact this h hh

theorem mask_f0 {h : Nat} (hh : h < 16) : (0xF0 ||| h) &&& 0x0f = h := by
  have : ∀ x < 16, (0xF0 ||| x) &&& 0x0f = x := by decide
  exact this h hh

theorem mask_e0 {h : Nat} (hh : h < 32) : (0xE0 ||| h) &&& 0x1f = h := by
  have : ∀ x < 32, (0xE0 ||| x) &&& 0x1f = x := by decide
  exact this h hh

theorem mask_ver {v c : Nat} (hv : v < 32) (hc : c < 2) :
    ((0xC0 ||| (v <<< 1) ||| c) &&& 0x3e) >>> 1 = v ∧ (0xC0 ||| (v <<< 1) ||| c) &&& 1 = c := by
  have : ∀ x < 32, ∀ y < 2,
      ((0xC0 ||| (x <<< 1) ||| y) &&& 0x3e) >>> 1 = x ∧ (0xC0 ||| (x <<< 1) ||| y) &&& 1 = y := by
    decide
  exact this v hv c hc

theorem getD_drop (l : List Nat) (n i : Nat) : (l.drop n).getD i 0 = l.getD (n + i) 0 := by
  simp [List.getD, List.getElem?_drop]

theorem getD_append_left {l : List Nat} (m : List Nat) {i : Nat} (h : i < l.length) :
    (l ++ m).getD i 0 = l.getD i 0 := by
  simp [List.getD, List.getElem?_append, h]

theorem sectionLength_append (l m : List Nat) (h : 2 < l.length) :
    sectionLength (l ++ m) = sectionLength l := by
  unfold sectionLength
  rw [getD_append_left m (by omega), getD_append_left m (by omega)]

/-- An empty serialized descriptor block means there were no descriptors. -/
theorem esInfoBytes_nil {e : PmtElementaryStream} (h : (esInfoBytes e).length = 0) :
    e.descriptors = [] := by
  cases hd : e.descriptors with
  | nil => rfl
  | cons d rest =>
    exfalso
    unfold esInfoBytes at h
    rw [hd] at h
    simp [descBytes] at h

/-- goSlice as a drop-then-take. -/
theorem goSlice_eq (b : List Nat) (lo k : Nat) :
    goSlice b lo (lo + k) = (b.drop lo).take k := by
  unfold goSlice
  rw [List.drop_take]
  congr 1
  omega

/-- The descriptor walk of parsePMTSection, run over a serialized descriptor
block that sits at `offset + dOff` in the buffer with at least 4 bytes after
it, parses back exactly the serialized descriptors. -/
theorem descLoop_serialized (ds : List PmtDescriptor) :
    ∀ (b : List Nat) (offset il dOff : Nat) (acc : List PmtDescriptor) (tail : List Nat),
      b.drop (offset + dOff) = (ds.map descBytes).flatten ++ tail →
      4 ≤ tail.length →
      dOff + ((ds.map descBytes).flatten).length = il →
      descLoop b offset il dOff acc = .ok (acc ++ ds) := by
  induction ds with
  | nil =>
    intro b offset il dOff acc tail hdrop htail hil
    rw [descLoop]
    have hnot : ¬ dOff < il := by simp at hil; omega
    rw [dif_neg hnot]
    simp
  | cons d rest ih =>
    intro b offset il dOff acc tail hdrop htail hil
    have hflat : ((d :: rest).map descBytes).flatten
        = descBytes d ++ (rest.map descBytes).flatten := by simp
    rw [hflat] at hdrop hil
    have hlen0 := congrArg List.length hdrop
    rw [List.length_drop] at hlen0
    simp only [List.length_append, descBytes, List.length_cons] at hlen0
    have hdb : (descBytes d).length = 2 + d.data.length := by simp [descBytes]; omega
    have hb : b.length
        = offset + dOff + (2 + d.data.length + ((rest.map descBytes).flatten).length
            + tail.length) := by
      simp [descBytes] at hlen0 ⊢
      omega
    have hlt : dOff < il := by
      rw [← hil]; simp only [List.length_append, hdb]; omega
    have hrd : offset + dOff + 1 < b.length := by omega
    rw [List.append_assoc] at hdrop
    have hget0 := getD_drop b (offset + dOff) 0
    rw [Nat.add_zero] at hget0
    have htag : b.getD (offset + dOff) 0 = d.tag := by
      rw [← hget0, hdrop]
      simp [descBytes]
    have hdlen : b.getD (offset + dOff + 1) 0 = d.data.length := by
      rw [← getD_drop b (offset + dOff) 1, hdrop]
      simp [descBytes]
    have hdrop2 : b.drop (offset + dOff + 2)
        = d.data ++ ((rest.map descBytes).flatten ++ tail) := by
      have : b.drop (offset + dOff + 2) = (b.drop (offset + dOff)).drop 2 := by
        rw [List.drop_drop]
      rw [this, hdrop]
      simp [descBytes]
    have hslice : goSlice b (offset + dOff + 2) (offset + dOff + 2 + d.data.length)
        = d.data := by
      rw [goSlice_eq, hdrop2]
      exact List.take_left' rfl
    rw [descLoop, dif_pos hlt, dif_pos hrd]
    simp only [htag, hdlen, hslice]
    rw [if_pos (by omega : offset + dOff + 2 + d.data.length < b.length)]
    have hrec := ih b offset il (dOff + 2 + d.data.length) (acc ++ [⟨d.tag, d.data⟩]) tail
      (by
        have hdd : b.drop (offset + (dOff + 2 + d.data.length))
            = (b.drop (offset + dOff)).drop (2 + d.data.length) := by
          rw [List.drop_drop]; congr 1; omega
        rw [hdd, hdrop]
        exact List.drop_left' hdb)
      htail
      (by rw [← hil]; simp only [List.length_append, hdb]; omega)
    rw [hrec]
    simp

/-- The elementary-stream walk of parsePMTSection, run over a serialized
stream region sitting at offset `o` with exactly 4 bytes of loop headroom
(the CRC) before the end-relative bound, parses back exactly the serialized
streams and their PIDs, in order. -/
theorem esLoop_serialized (streams : List PmtElementaryStream) :
    ∀ (b : List Nat) (o bound : Nat) (accP : List Nat) (accS : List PmtElementaryStream)
      (tail : List Nat),
      (∀ e ∈ streams, WFStream e) →
      b.drop o = esRegion streams ++ tail →
      4 ≤ tail.length →
      bound + 4 = o + (esRegion streams).length →
      esLoop b bound o accP accS
        = .ok (accP ++ streams.map (·.elementaryPid), accS ++ streams) := by
  induction streams with
  | nil =>
    intro b o bound accP accS tail hwf hdrop htail hbound
    rw [esLoop]
    have hnot : ¬ o < bound := by simp [esRegion] at hbound; omega
    rw [dif_neg hnot]
    simp
  | cons e rest ih =>
    intro b o bound accP accS tail hwf hdrop htail hbound
    obtain ⟨hst, hpid, hilb, hdwf⟩ := hwf e (by simp)
    have hregion : esRegion (e :: rest) = esBytes e ++ esRegion rest := by
      simp [esRegion]
    rw [hregion] at hdrop hbound
    rw [List.append_assoc] at hdrop
    have hesb : (esBytes e).length = 5 + (esInfoBytes e).length := by
      simp [esBytes]; omega
    have hlen0 := congrArg List.length hdrop
    rw [List.length_drop] at hlen0
    rw [List.length_append, hesb, List.length_append] at hlen0
    have hb : b.length
        = o + (5 + (esInfoBytes e).length) + (esRegion rest).length + tail.length := by
      omega
    have hlt : o < bound := by
      rw [List.length_append, hesb] at hbound; omega
    have hrd : o + 4 < b.length := by omega
    have h0 := getD_drop b o 0
    rw [Nat.add_zero] at h0
    have hrd0 : b.getD o 0 = e.streamType := by
      rw [← h0, hdrop]; simp [esBytes]
    have hrd1 : b.getD (o + 1) 0 = 0xE0 ||| (e.elementaryPid >>> 8) := by
      rw [← getD_drop b o 1, hdrop]; simp [esBytes]
    have hrd2 : b.getD (o + 2) 0 = e.elementaryPid % 256 := by
      rw [← getD_drop b o 2, hdrop]; simp [esBytes]
    have hrd3 : b.getD (o + 3) 0 = 0xF0 ||| ((esInfoBytes e).length >>> 8) := by
      rw [← getD_drop b o 3, hdrop]; simp [esBytes]
    have hrd4 : b.getD (o + 4) 0 = (esInfoBytes e).length % 256 := by
      rw [← getD_drop b o 4, hdrop]; simp [esBytes]
    have hepid : ((b.getD (o + 1) 0) &&& 0x1f) <<< 8 ||| b.getD (o + 2) 0
        = e.elementaryPid := by
      rw [hrd1, hrd2, mask_e0 (by rw [Nat.shiftRight_eq_div_pow]; omega), shift_or_mod]
    have hilv : ((b.getD (o + 3) 0) &&& 0x0f) <<< 8 ||| b.getD (o + 4) 0
        = (esInfoBytes e).length := by
      rw [hrd3, hrd4, mask_f0 (by rw [Nat.shiftRight_eq_div_pow]; omega), shift_or_mod]
    have hdrop5 : b.drop (o + 5) = esInfoBytes e ++ (esRegion rest ++ tail) := by
      have hd5 : b.drop (o + 5) = (b.drop o).drop 5 := by
        rw [List.drop_drop]
      rw [hd5, hdrop]
      simp [esBytes]
    rw [esLoop, dif_pos hlt, dif_pos hrd]
    simp only [hrd0, hepid, hilv]
    by_cases hil0 : (esInfoBytes e).length = 0
    · have hinfo : esInfoBytes e = [] := List.length_eq_zero.mp hil0
      have hdesc0 : e.descriptors = [] := esInfoBytes_nil hil0
      rw [if_neg (by simp [hil0])]
      have heta : (⟨e.streamType, e.elementaryPid, []⟩ : PmtElementaryStream) = e := by
        rw [← hdesc0]
      rw [heta]
      have hrec := ih b (o + 5) bound (accP ++ [e.elementaryPid]) (accS ++ [e]) tail
        (fun x hx => hwf x (by simp [hx]))
        (by rw [hdrop5, hinfo]; simp)
        htail
        (by rw [List.length_append, hesb] at hbound; omega)
      rw [hrec]
      simp
    · rw [if_pos ⟨hil0, by omega⟩]
      have hdesc := descLoop_serialized e.descriptors b (o + 5) (esInfoBytes e).length 0 []
        (esRegion rest ++ tail)
        (by rw [Nat.add_zero]; simpa [esInfoBytes] using hdrop5)
        (by simp; omega)
        (by simp [esInfoBytes])
      rw [hdesc]
      simp only [List.nil_append]
      have heta : (⟨e.streamType, e.elementaryPid, e.descriptors⟩ : PmtElementaryStream)
          = e := rfl
      rw [heta]
      have hrec := ih b (o + 5 + (esInfoBytes e).length) bound
        (accP ++ [e.elementaryPid]) (accS ++ [e]) tail
        (fun x hx => hwf x (by simp [hx]))
        (by
          have hdd : b.drop (o + 5 + (esInfoBytes e).length)
              = (b.drop (o + 5)).drop (esInfoBytes e).length := by
            rw [List.drop_drop]
          rw [hdd, hdrop5]
          exact List.drop_left' rfl)
        htail
        (by rw [List.length_append, hesb] at hbound; omega)
      rw [hrec]
      simp

/-- parsePMTSection, applied to a canonical serialized section (body plus any
4 trailing CRC bytes), succeeds and returns exactly the serialized version,
current-next flag, parallel PID list and elementary-stream list. -/
theorem parsePMTSection_serialized (ver : Nat) (cni : Bool) (progNum pcrPid : Nat)
    (progInfo : List Nat) (streams : List PmtElementaryStream) (crc : List Nat)
    (hver : ver < 32) (hwf : WFBody progInfo streams) (hcrc : crc.length = 4) :
    parsePMTSection (sectionNoCRC ver cni progNum pcrPid progInfo streams ++ crc)
      = .ok ⟨streams.map (·.elementaryPid), streams, ver, cni⟩ := by
  obtain ⟨hpi, hS, hws⟩ := hwf
  have hlen : (sectionNoCRC ver cni progNum pcrPid progInfo streams ++ crc).length
      = 16 + progInfo.length + (esRegion streams).length := by
    simp [sectionNoCRC, hcrc]
    omega
  have hsl : sectionLength (sectionNoCRC ver cni progNum pcrPid progInfo streams ++ crc)
      = ((0xB0 ||| ((13 + progInfo.length + (esRegion streams).length) >>> 8)) &&& 0x0f) <<< 8
        ||| ((13 + progInfo.length + (esRegion streams).length) % 256) := rfl
  rw [mask_b0 (by rw [Nat.shiftRight_eq_div_pow]; omega), shift_or_mod] at hsl
  have h5 : (sectionNoCRC ver cni progNum pcrPid progInfo streams ++ crc).getD 5 0
      = 0xC0 ||| (ver <<< 1) ||| (if cni then 1 else 0) := rfl
  have h10 : (sectionNoCRC ver cni progNum pcrPid progInfo streams ++ crc).getD 10 0
      = 0xF0 ||| (progInfo.length >>> 8) := rfl
  have h11 : (sectionNoCRC ver cni progNum pcrPid progInfo streams ++ crc).getD 11 0
      = progInfo.length % 256 := rfl
  have hmv := mask_ver hver
    (c := if cni then 1 else 0) (by cases cni <;> simp)
  have hverv : (((sectionNoCRC ver cni progNum pcrPid progInfo streams ++ crc).getD 5 0)
      &&& 0x3e) >>> 1 = ver := by rw [h5, hmv.1]
  have hcniv : ((sectionNoCRC ver cni progNum pcrPid progInfo streams ++ crc).getD 5 0
      &&& 1 == 1) = cni := by
    rw [h5, hmv.2]
    cases cni <;> rfl
  have hpilv : (((sectionNoCRC ver cni progNum pcrPid progInfo streams ++ crc).getD 10 0)
      &&& 0x0f) <<< 8 ||| (sectionNoCRC ver cni progNum pcrPid progInfo streams ++ crc).getD 11 0
      = progInfo.length := by
    rw [h10, h11, mask_f0 (by rw [Nat.shiftRight_eq_div_pow]; omega), shift_or_mod]
  have hes := esLoop_serialized streams
    (sectionNoCRC ver cni progNum pcrPid progInfo streams ++ crc)
    (12 + progInfo.length)
    (13 + progInfo.length + (esRegion streams).length - 5) [] [] crc hws
    (by
      have hassoc : sectionNoCRC ver cni progNum pcrPid progInfo streams ++ crc
          = ([0x02,
              0xB0 ||| ((13 + progInfo.length + (esRegion streams).length) >>> 8),
              (13 + progInfo.length + (esRegion streams).length) % 256,
              (progNum >>> 8) % 256, progNum % 256,
              0xC0 ||| (ver <<< 1) ||| (if cni then 1 else 0),
              0, 0, 0xE0 ||| ((pcrPid >>> 8) &&& 0x1f), pcrPid % 256,
              0xF0 ||| (progInfo.length >>> 8), progInfo.length % 256] ++ progInfo)
            ++ (esRegion streams ++ crc) := by
        simp [sectionNoCRC]
      rw [hassoc]
      refine List.drop_left' ?_
      simp
      omega)
    (by omega)
    (by omega)
  rw [parsePMTSection]
  rw [if_pos (show 2 < (sectionNoCRC ver cni progNum pcrPid progInfo streams ++ crc).length by
    rw [hlen]; omega)]
  rw [if_neg (show ¬ (sectionNoCRC ver cni progNum pcrPid progInfo streams ++ crc).length ≤ 11 by
    rw [hlen]; omega)]
  simp only [hsl, hverv, hcniv, hpilv]
  rw [if_pos (by omega : 5 ≤ 13 + progInfo.length + (esRegion streams).length)]
  rw [hes]
  simp

/-- Bytes that legally follow the last section: either fewer than 3 bytes
remain or the next byte is the stuffing marker 0xFF (§3). -/
def StuffingPad (pad : List Nat) : Prop := pad.length ≤ 2 ∨ pad.getD 0 0 = 0xFF

instance (pad : List Nat) : Decidable (StuffingPad pad) := by
  unfold StuffingPad; infer_instance

theorem parseTables_pad (pad : List Nat) (acc : Pmt) (hpad : StuffingPad pad) :
    parseTables pad acc = .ok acc := by
  rw [parseTables]
  rcases hpad with h | h
  · rw [dif_neg]
    intro hc
    omega
  · rw [dif_neg]
    intro hc
    exact hc.2 h

/-- parseTables, applied to one canonical serialized PMT section followed by
stuffing, succeeds with the section's streams (replacing the accumulator). -/
theorem parseTables_serialized (ver : Nat) (cni : Bool) (progNum pcrPid : Nat)
    (progInfo : List Nat) (streams : List PmtElementaryStream) (crc pad : List Nat) (acc : Pmt)
    (hver : ver < 32) (hwf : WFBody progInfo streams) (hcrc : crc.length = 4)
    (hpad : StuffingPad pad) :
    parseTables ((sectionNoCRC ver cni progNum pcrPid progInfo streams ++ crc) ++ pad) acc
      = .ok ⟨streams.map (·.elementaryPid), streams, ver, cni⟩ := by
  obtain ⟨hpi, hS, hws⟩ := hwf
  have hseclen : (sectionNoCRC ver cni progNum pcrPid progInfo streams ++ crc).length
      = 16 + progInfo.length + (esRegion streams).length := by
    simp [sectionNoCRC, hcrc]
    omega
  have hlen : ((sectionNoCRC ver cni progNum pcrPid progInfo streams ++ crc) ++ pad).length
      = 16 + progInfo.length + (esRegion streams).length + pad.length := by
    rw [List.length_append, hseclen]
  have hsl : sectionLength ((sectionNoCRC ver cni progNum pcrPid progInfo streams ++ crc) ++ pad)
      = ((0xB0 ||| ((13 + progInfo.length + (esRegion streams).length) >>> 8)) &&& 0x0f) <<< 8
        ||| ((13 + progInfo.length + (esRegion streams).length) % 256) := rfl
  rw [mask_b0 (by rw [Nat.shiftRight_eq_div_pow]; omega
        : (13 + progInfo.length + (esRegion streams).length) >>> 8 < 16),
    shift_or_mod] at hsl
  have h0 : ((sectionNoCRC ver cni progNum pcrPid progInfo streams ++ crc) ++ pad).getD 0 0
      = 2 := rfl
  rw [parseTables]
  rw [dif_pos (by
    constructor
    · rw [hlen]; omega
    · rw [h0]; omega)]
  rw [hsl]
  rw [dif_pos (by rw [hlen]; omega
    : 3 + (13 + progInfo.length + (esRegion streams).length)
        ≤ ((sectionNoCRC ver cni progNum pcrPid progInfo streams ++ crc) ++ pad).length)]
  rw [if_pos (by rw [h0] : ((sectionNoCRC ver cni progNum pcrPid progInfo streams ++ crc)
      ++ pad).getD 0 0 = 2)]
  have htake : ((sectionNoCRC ver cni progNum pcrPid progInfo streams ++ crc) ++ pad).take
      (3 + (13 + progInfo.length + (esRegion streams).length))
      = sectionNoCRC ver cni progNum pcrPid progInfo streams ++ crc :=
    List.take_left' (by rw [hseclen]; omega)
  have hdrop : ((sectionNoCRC ver cni progNum pcrPid progInfo streams ++ crc) ++ pad).drop
      (3 + (13 + progInfo.length + (esRegion streams).length)) = pad :=
    List.drop_left' (by rw [hseclen]; omega)
  rw [htake, hdrop, parsePMTSection_serialized ver cni progNum pcrPid progInfo streams crc
    hver ⟨hpi, hS, hws⟩ hcrc]
  exact parseTables_pad pad _ hpad

theorem NewPMT_cons_zero (rest : List Nat) :
    NewPMT (0 :: rest) = parseTables rest ⟨[], [], 0, false⟩ := by
  simp [NewPMT]

/-- NewPMT, applied to a canonical serialized PMT buffer (zero pointer field,
one section with valid CRC, stuffing), returns exactly the serialized
streams, their PID list, and the header fields. -/
theorem NewPMT_serialized (ver : Nat) (cni : Bool) (progNum pcrPid : Nat)
    (progInfo : List Nat) (streams : List PmtElementaryStream) (pad : List Nat)
    (hver : ver < 32) (hwf : WFBody progInfo streams) (hpad : StuffingPad pad) :
    NewPMT (pmtBuf ver cni progNum pcrPid progInfo streams ++ pad)
      = .ok ⟨streams.map (·.elementaryPid), streams, ver, cni⟩ := by
  have hcons : pmtBuf ver cni progNum pcrPid progInfo streams ++ pad
      = 0 :: ((sectionNoCRC ver cni progNum pcrPid progInfo streams
          ++ ComputeCRC (sectionNoCRC ver cni progNum pcrPid progInfo streams)) ++ pad) := by
    simp [pmtBuf, pmtSection]
  rw [hcons, NewPMT_cons_zero]
  exact parseTables_serialized ver cni progNum pcrPid progInfo streams _ pad _ hver hwf
    (ComputeCRC_length _) hpad

/-- C5: for every N ≥ 0 and every well-formed synthetic PMT buffer encoding N
elementary streams each with zero or more descriptors, NewPMT succeeds and
the resulting PMT has as many elementary streams and PIDs as were serialized,
with the PID list parallel and order-preserving: pids[i] is the elementary
PID of the i-th entry of the stream list. -/
theorem c5_parse_synthetic (ver : Nat) (cni : Bool) (progNum pcrPid : Nat)
    (progInfo : List Nat) (streams : List PmtElementaryStream) (pad : List Nat)
    (hver : ver < 32) (hwf : WFBody progInfo streams) (hpad : StuffingPad pad) :
    ∃ p : Pmt, NewPMT (pmtBuf ver cni progNum pcrPid progInfo streams ++ pad) = .ok p
      ∧ p.elementaryStreams = streams
      ∧ p.elementaryStreams.length = streams.length
      ∧ p.pids.length = streams.length
      ∧ ∀ i, i < streams.length →
          p.pids.getD i 0 = (p.elementaryStreams.getD i ⟨0, 0, []⟩).elementaryPid := by
  refine ⟨⟨streams.map (·.elementaryPid), streams, ver, cni⟩,
    NewPMT_serialized ver cni progNum pcrPid progInfo streams pad hver hwf hpad,
    rfl, rfl, by simp, ?_⟩
  intro i hi
  simp [List.getD, List.get?_eq_getElem?, List.getElem?_map, List.getElem?_eq_getElem hi]

/-- Concrete two-stream PMT used to witness C5. -/
def c5WitnessStreams : List PmtElementaryStream :=
  [⟨0x1B, 0x65, [⟨0x05, [0x43, 0x55, 0x45, 0x49]⟩]⟩, ⟨0x0F, 0x66, []⟩]

/-- Witness for C5 at a concrete 2-stream, 1-descriptor PMT. -/
theorem c5_parse_synthetic_witness :
    (3 : Nat) < 32 ∧ WFBody [0x09, 0x04] c5WitnessStreams ∧ StuffingPad [0xFF, 0xFF]
      ∧ ∃ p : Pmt,
          NewPMT (pmtBuf 3 true 1 0x1E5 [0x09, 0x04] c5WitnessStreams ++ [0xFF, 0xFF]) = .ok p
          ∧ p.elementaryStreams = c5WitnessStreams
          ∧ p.elementaryStreams.length = 2 ∧ p.pids.length = 2
          ∧ ∀ i, i < 2 →
              p.pids.getD i 0 = (p.elementaryStreams.getD i ⟨0, 0, []⟩).elementaryPid := by
  refine ⟨by omega, by decide, by decide, ?_⟩
  have h := c5_parse_synthetic 3 true 1 0x1E5 [0x09, 0x04] c5WitnessStreams [0xFF, 0xFF]
    (by omega) (by decide) (by decide)
  simpa [c5WitnessStreams] using h

theorem descLoop_no_crash (b : List Nat) (offset il dOff : Nat) (acc : List PmtDescriptor)
    (hin : offset + il < b.length) : descLoop b offset il dOff acc ≠ .crash := by
  rw [descLoop]
  by_cases h : dOff < il
  · rw [dif_pos h, dif_pos (by omega : offset + dOff + 1 < b.length)]
    split
    · exact descLoop_no_crash b offset il _ _ hin
    · simp
  · rw [dif_neg h]
    simp
termination_by il - dOff
decreasing_by omega

theorem esLoop_no_crash (b : List Nat) (bound offset : Nat) (pids : List Nat)
    (streams : List PmtElementaryStream) (hb : bound + 4 ≤ b.length) :
    esLoop b bound offset pids streams ≠ .crash := by
  rw [esLoop]
  by_cases h : offset < bound
  · rw [dif_pos h, dif_pos (by omega : offset + 4 < b.length)]
    split
    · next hcond =>
        split
        · exact esLoop_no_crash b bound _ _ _ hb
        · simp
        · rename_i heq
          exact absurd heq (descLoop_no_crash b (offset + 5) _ 0 [] (by omega))
    · next hcond =>
        exact esLoop_no_crash b bound _ _ _ hb
  · rw [dif_neg h]
    simp
termination_by bound - offset
decreasing_by all_goals omega

theorem getD_take {s : List Nat} {n i : Nat} (h : i < n) :
    (s.take n).getD i 0 = s.getD i 0 := by
  simp [List.getD, List.get?_eq_getElem?, List.getElem?_take, h]

theorem parsePMTSection_no_crash (b : List Nat) (hlen : b.length = 3 + sectionLength b) :
    parsePMTSection b ≠ .crash := by
  rw [parsePMTSection]
  rw [if_pos (by omega : 2 < b.length)]
  by_cases h11 : b.length ≤ 11
  · rw [if_pos h11]
    simp
  · rw [if_neg h11]
    rw [if_pos (by omega : 5 ≤ sectionLength b)]
    split
    · simp
    · simp
    · rename_i heq
      exact absurd heq (esLoop_no_crash b _ _ [] [] (by omega))

theorem parseTables_no_crash (s : List Nat) (acc : Pmt) (hscan : scanSections s = true) :
    parseTables s acc ≠ .crash := by
  rw [parseTables]
  rw [scanSections] at hscan
  by_cases h : 2 < s.length ∧ s.getD 0 0 ≠ 0xFF
  · rw [dif_pos h] at hscan ⊢
    by_cases hlt : s.length < sectionLength s + 3
    · rw [if_pos hlt] at hscan
      simp at hscan
    · rw [if_neg hlt] at hscan
      rw [dif_pos (by omega : 3 + sectionLength s ≤ s.length)]
      by_cases htid : s.getD 0 0 = 2
      · rw [if_pos htid]
        split
        · exact parseTables_no_crash _ _ hscan
        · simp
        · rename_i heq
          refine absurd heq (parsePMTSection_no_crash _ ?_)
          have h1 : (s.take (3 + sectionLength s)).length = 3 + sectionLength s := by
            rw [List.length_take]
            omega
          have h2 : sectionLength (s.take (3 + sectionLength s)) = sectionLength s := by
            unfold sectionLength
            rw [getD_take (by omega), getD_take (by omega)]
          rw [h1, h2]
      · rw [if_neg htid]
        exact parseTables_no_crash _ _ hscan
  · rw [dif_neg h]
    simp
termination_by s.length
decreasing_by all_goals (simp only [List.length_drop]; omega)

theorem NewPMT_cons (x : Nat) (xs : List Nat) :
    NewPMT (x :: xs)
      = if 1 + x ≤ (x :: xs).length then parseTables ((x :: xs).drop (1 + x)) ⟨[], [], 0, false⟩
        else .crash := by
  simp [NewPMT]

/-- On any buffer accepted by the accumulator completion predicate (every
scanned section contained in the buffer), the PMT parse path never reads out
of bounds. -/
theorem newPMT_done_no_crash (b : List Nat)
    (hdone : (PmtAccumulatorDoneFunc b).1 = true) : NewPMT b ≠ .crash := by
  unfold PmtAccumulatorDoneFunc at hdone
  by_cases h1 : b.length < 1
  · rw [if_pos h1] at hdone
    simp at hdone
  · rw [if_neg h1] at hdone
    by_cases h2 : b.length < 1 + b.getD 0 0
    · rw [if_pos h2] at hdone
      simp at hdone
    · rw [if_neg h2] at hdone
      simp only at hdone
      cases b with
      | nil => simp at h1
      | cons x xs =>
        rw [NewPMT_cons, if_pos (by simpa using Nat.not_lt.mp h2)]
        have hx : (x :: xs).getD 0 0 = x := rfl
        rw [hx] at hdone
        exact parseTables_no_crash _ _ hdone

/-- C1 (amended): program_info_length, ES_info_length and descriptor-length
overruns inside a section produce error returns (or, for ES_info_length, a
skipped descriptor block), never an out-of-bounds access, and on every buffer
accepted by PmtAccumulatorDoneFunc (each scanned section's declared
section_length + 3 bytes contained in the buffer) the whole parse path
NewPMT / parseTables / parsePMTSection is total with no fault; but a
section_length that implies a read past the end of the buffer makes
parseTables take an out-of-bounds slice (a Go panic) instead of returning an
error. -/
theorem c1_parse_no_crash_when_sections_contained (b : List Nat)
    (hdone : (PmtAccumulatorDoneFunc b).1 = true) : NewPMT b ≠ .crash :=
  newPMT_done_no_crash b hdone

/-- Witness for the amended C1 on a concrete accepted buffer. -/
theorem c1_parse_no_crash_witness :
    (PmtAccumulatorDoneFunc [0, 0xFF, 0xFF, 0xFF]).1 = true
      ∧ NewPMT [0, 0xFF, 0xFF, 0xFF] ≠ .crash := by
  have hd : (PmtAccumulatorDoneFunc [0, 0xFF, 0xFF, 0xFF]).1 = true := by
    rw [PmtAccumulatorDoneFunc]
    norm_num
    rw [scanSections]
    norm_num
  exact ⟨hd, c1_parse_no_crash_when_sections_contained _ hd⟩

/-- C1 counterexample: a 4-byte buffer whose single section declares
section_length 16; the declared length implies a read past the buffer end,
and NewPMT faults on the unchecked slice `sectionBytes[0 : 3+tableLength]`
instead of returning an error value. -/
theorem c1_counterexample : NewPMT [0, 2, 0xb0, 0x10] = .crash := by
  rw [NewPMT_cons_zero, parseTables]
  simp [sectionLength]

/-- The descriptor walk as the amended C7 claim words it: for each descriptor,
read tag and declared length; if the payload would end at or past the end of
the section buffer, fail (here: none); otherwise slice the payload and
advance past it. -/
def descWalkSpec (b : List Nat) (offset il : Nat) (dOff : Nat) (acc : List PmtDescriptor) :
    Option (List PmtDescriptor) :=
  if h : dOff < il then
    if offset + dOff + 2 + b.getD (offset + dOff + 1) 0 < b.length then
      descWalkSpec b offset il (dOff + 2 + b.getD (offset + dOff + 1) 0)
        (acc ++ [⟨b.getD (offset + dOff) 0,
          goSlice b (offset + dOff + 2) (offset + dOff + 2 + b.getD (offset + dOff + 1) 0)⟩])
    else none
  else some acc
termination_by il - dOff
decreasing_by omega

/-- C7 (amended): within a PMT section, whenever the descriptor walk is
entered (its ES-info block lies strictly inside the buffer), the walk of
parsePMTSection fails with the distinguished descriptor-parse error exactly
when some descriptor's declared payload would end at or past the buffer end,
and otherwise slices each payload and advances past it; no malformed
descriptor length is silently accepted or skipped. -/
theorem c7_descriptor_walk (b : List Nat) (offset il dOff : Nat) (acc : List PmtDescriptor)
    (hin : offset + il < b.length) :
    descLoop b offset il dOff acc
      = match descWalkSpec b offset il dOff acc with
        | some ds => .ok ds
        | none => .errv .errParsePMTDescriptor := by
  rw [descLoop, descWalkSpec]
  by_cases h : dOff < il
  · rw [dif_pos h, dif_pos (by omega : offset + dOff + 1 < b.length), dif_pos h]
    by_cases he : offset + dOff + 2 + b.getD (offset + dOff + 1) 0 < b.length
    · rw [if_pos he, if_pos he]
      exact c7_descriptor_walk b offset il _ _ hin
    · rw [if_neg he, if_neg he]
  · rw [dif_neg h, dif_neg h]
termination_by il - dOff
decreasing_by omega

/-- Witness for C7 at a concrete in-bounds descriptor block. -/
theorem c7_descriptor_walk_witness :
    2 + 2 < ([1, 2, 3, 4, 5, 6, 7] : List Nat).length
      ∧ descLoop [1, 2, 3, 4, 5, 6, 7] 2 2 0 []
        = match descWalkSpec [1, 2, 3, 4, 5, 6, 7] 2 2 0 [] with
          | some ds => .ok ds
          | none => .errv .errParsePMTDescriptor :=
  ⟨by decide, c7_descriptor_walk [1, 2, 3, 4, 5, 6, 7] 2 2 0 [] (by decide)⟩

/-- A 21-byte PMT section whose single descriptor's payload ends exactly at
the section's end: one ES entry with ES_info_length 3 and a descriptor
declaring 2 payload bytes after its 2 header bytes. -/
def c7sec : List Nat :=
  [0x02, 0xB0, 0x12, 0x00, 0x01, 0xC1, 0x00, 0x00, 0xE0, 0x65, 0xF0, 0x00,
   0x1B, 0xE0, 0x65, 0xF0, 0x03, 0x05, 0x02, 0xAA, 0xBB]

/-- The section above behind a zero pointer field. -/
def c7buf : List Nat := 0x00 :: c7sec

/-- C7 counterexample: in c7buf the descriptor's payload (the final two bytes
0xAA 0xBB, both present in the buffer) ends exactly at the section end, so it
does not extend past the end of the section buffer; the original claim then
requires the parser to slice it and advance, but parsePMTSection fails with
the descriptor-parse error (the code tests end < length, not end ≤ length). -/
theorem c7_counterexample :
    NewPMT c7buf = .errv .errParsePMTDescriptor
      ∧ c7sec.length = 21
      ∧ goSlice c7sec 19 21 = [0xAA, 0xBB] := by
  refine ⟨?_, by decide, by decide⟩
  unfold c7buf
  rw [NewPMT_cons_zero, parseTables, dif_pos (by decide), dif_pos (by decide),
    if_pos (by decide)]
  rw [show c7sec.take (3 + sectionLength c7sec) = c7sec from by decide]
  rw [parsePMTSection, if_pos (by decide), if_neg (by decide)]
  rw [show (if 5 ≤ sectionLength c7sec then sectionLength c7sec - 5
      else sectionLength c7sec + 65531) = 13 from by decide]
  rw [show 12 + (((c7sec.getD 10 0) &&& 0x0f) <<< 8 ||| c7sec.getD 11 0) = 12
    from by decide]
  rw [esLoop, dif_pos (by decide), dif_pos (by decide), if_pos (by decide)]
  rw [show (((c7sec.getD (12 + 3) 0) &&& 0x0f) <<< 8 ||| c7sec.getD (12 + 4) 0) = 3
    from by decide]
  rw [descLoop, dif_pos (by decide), dif_pos (by decide), if_neg (by decide)]

/-- Modelled from the spec: the fixed-packet accessor interface (§6) that the
core consumes: header bytes (everything before the payload), payload bytes,
and the 13-bit PID, for one 188-byte transport packet. The core treats the
header opaquely; packets with no payload are outside the claims and payload
extraction always succeeds here. -/
structure GoPacket where
  header : List Nat
  payload : List Nat
  pid : Nat
deriving DecidableEq, Repr

/-- packet.PacketSize: fixed transport-packet size. -/
def PacketSize : Nat := 188

/-- Modelled from the spec: the PAT's own PID (psi package constant PatPid,
not under src/): PID 0 carries the PAT. -/
def PatPid : Nat := 0

/-- The payload concatenation step of FilterPMTPacketsToPids (pmt.go lines
297-306). -/
def concatPayloads (pkts : List GoPacket) : List Nat := (pkts.map (·.payload)).flatten

/-- pidIn (pmt.go lines 437-445). -/
def pidIn (pids : List Nat) (target : Nat) : Bool := pids.contains target

/-- safeSlice (pmt.go lines 422-427). -/
def safeSlice (byteArray : List Nat) (start endPos : Nat) : List Nat :=
  if endPos < byteArray.length then goSlice byteArray start endPos
  else goSlice byteArray start byteArray.length

/-- padPacket (pmt.go lines 429-435): copy header and chunk into a fresh
188-byte packet and fill the tail with stuffing bytes. Seen through the
packet accessors, the result keeps the copied header (hence the source
packet's PID) and carries the chunk plus stuffing as payload. -/
def padPacket (header chunk : List Nat) (pid : Nat) : GoPacket :=
  { header := header,
    payload := chunk ++ List.replicate (PacketSize - header.length - chunk.length) 0xFF,
    pid := pid }

/-- The output-packet loop of FilterPMTPacketsToPids (pmt.go lines 378-397):
for each input packet reuse its header, write as much of the remaining
rewritten-PMT bytes as fits, pad with stuffing, and stop once the bytes are
exhausted. -/
def repack (pkts : List GoPacket) (fPMT : List Nat) : List GoPacket :=
  match pkts with
  | [] => []
  | pkt :: rest =>
    if fPMT.length = 0 then []
    else
      padPacket pkt.header (safeSlice fPMT 0 (PacketSize - pkt.header.length)) pkt.pid
        :: repack rest (fPMT.drop (safeSlice fPMT 0 (PacketSize - pkt.header.length)).length)

/-- Canonical packetization of a buffer: chunk it across packets with the
given headers, last chunk padded with stuffing, all packets carrying the
same PID. This mirrors how a PMT is carried on the wire and is definitionally
the same chunking the repack loop performs. -/
def mkPackets (headers : List (List Nat)) (cpid : Nat) (buf : List Nat) : List GoPacket :=
  match headers with
  | [] => []
  | h :: rest =>
    if buf.length = 0 then []
    else
      padPacket h (safeSlice buf 0 (PacketSize - h.length)) cpid
        :: mkPackets rest cpid (buf.drop (safeSlice buf 0 (PacketSize - h.length)).length)

/-- The 12-bit program-info length at offset 10/11 of a section buffer
(pmt.go lines 346, 351-353). -/
def progInfoLen (rest : List Nat) : Nat := ((rest.getD 10 0) &&& 0x0f) <<< 8 ||| rest.getD 11 0

/-- The elementary-stream loop bound `PSIHeaderLen + sectionLength -
pmtEsDescriptorStaticLen - CrcLen` in uint16 arithmetic. -/
def esBound (sLen : Nat) : Nat := if 5 ≤ sLen then sLen - 5 else sLen + 65531

/-- The stream-filtering loop of FilterPMTPacketsToPids (pmt.go lines
351-361): walk the elementary-stream entries exactly as the parser does and
copy each entry's full static-plus-descriptor block when its PID is among
the requested ones; faults on an out-of-bounds read or slice. -/
def filterEsLoop (b : List Nat) (bound offset : Nat) (pids : List Nat) : GoR (List Nat) :=
  if h : offset < bound then
    if hr : offset + 4 < b.length then
      if pidIn pids (((b.getD (offset + 1) 0) &&& 0x1f) <<< 8 ||| b.getD (offset + 2) 0) then
        if offset + 5 + (((b.getD (offset + 3) 0) &&& 0x0f) <<< 8 ||| b.getD (offset + 4) 0)
            ≤ b.length then
          match filterEsLoop b bound
              (offset + 5 + (((b.getD (offset + 3) 0) &&& 0x0f) <<< 8 ||| b.getD (offset + 4) 0))
              pids with
          | .ok rest =>
            .ok (goSlice b offset
              (offset + 5 + (((b.getD (offset + 3) 0) &&& 0x0f) <<< 8 ||| b.getD (offset + 4) 0))
              ++ rest)
          | .errv e => .errv e
          | .crash => .crash
        else .crash
      else
        filterEsLoop b bound
          (offset + 5 + (((b.getD (offset + 3) 0) &&& 0x0f) <<< 8 ||| b.getD (offset + 4) 0))
          pids
    else .crash
  else .ok []
termination_by bound - offset
decreasing_by all_goals omega

/-- The new 12-bit section length after filtering (pmt.go line 369), in
uint16 arithmetic: buffer length minus the stuffing bytes before the pointer
field byte. -/
def newSecLen (pf1 fLen : Nat) : Nat := (fLen + 65536 - (pf1 - 1)) % 65536

/-- The in-place patch of the two section-length bytes (pmt.go lines
370-373): keep the high reserved nibble, write the recomputed length. -/
def patchSection (pf1 : Nat) (fPMT : List Nat) : List Nat :=
  (fPMT.set (pf1 + 1)
      ((fPMT.getD (pf1 + 1) 0 &&& 0xf0) ||| (newSecLen pf1 fPMT.length >>> 8))).set
    (pf1 + 2) (newSecLen pf1 fPMT.length % 256)

/-- Patch the section length and append the freshly computed CRC over the
rewritten section (pmt.go line 376). -/
def patchAndCRC (pf1 : Nat) (fPMT : List Nat) : List Nat :=
  patchSection pf1 fPMT ++ ComputeCRC ((patchSection pf1 fPMT).drop pf1)

/-- The rewrite stage of FilterPMTPacketsToPids (pmt.go lines 331-376): copy
the pointer region, the 12-byte section prefix and the program-info bytes,
keep only matching elementary-stream blocks, patch the section length and
append a fresh CRC. Unchecked Go slices fault when out of range. -/
def filterBuild (pmtPayload : List Nat) (pids : List Nat) : GoR (List Nat) :=
  if pmtPayload.getD 0 0 + 1 ≤ pmtPayload.length then
    if 12 ≤ (pmtPayload.drop (pmtPayload.getD 0 0 + 1)).length then
      if progInfoLen (pmtPayload.drop (pmtPayload.getD 0 0 + 1)) = 0
          ∨ 12 + progInfoLen (pmtPayload.drop (pmtPayload.getD 0 0 + 1))
              ≤ (pmtPayload.drop (pmtPayload.getD 0 0 + 1)).length then
        match filterEsLoop (pmtPayload.drop (pmtPayload.getD 0 0 + 1))
            (esBound (sectionLength (pmtPayload.drop (pmtPayload.getD 0 0 + 1))))
            (12 + progInfoLen (pmtPayload.drop (pmtPayload.getD 0 0 + 1))) pids with
        | .ok kept =>
          .ok (patchAndCRC (pmtPayload.getD 0 0 + 1)
            (pmtPayload.take (pmtPayload.getD 0 0 + 1)
              ++ (pmtPayload.drop (pmtPayload.getD 0 0 + 1)).take 12
              ++ (if progInfoLen (pmtPayload.drop (pmtPayload.getD 0 0 + 1)) = 0 then []
                  else goSlice (pmtPayload.drop (pmtPayload.getD 0 0 + 1)) 12
                    (12 + progInfoLen (pmtPayload.drop (pmtPayload.getD 0 0 + 1))))
              ++ kept))
        | .errv e => .errv e
        | .crash => .crash
      else .crash
    else .crash
  else .crash

/-- The missing-PID accounting of FilterPMTPacketsToPids (pmt.go lines
311-318): requested PIDs absent from the PMT, not counting the PAT PID or
the PMT's own carrying PID. -/
def missingPids (u : Pmt) (pmtPid : Nat) (pids : List Nat) : List Nat :=
  pids.filter (fun pid => !u.PIDExists pid && pid != PatPid && pid != pmtPid)

/-- FilterPMTPacketsToPids (pmt.go lines 286-399). Go's nil packet slice is
`none`; the final nonempty rebuilt list is `some`. When NewPMT fails on the
concatenated payload, the Go code discards the error and calls PIDExists on
a nil interface, a fault (crash). -/
def FilterPMTPacketsToPids (packets : List GoPacket) (pids : List Nat) :
    GoR (Option (List GoPacket) × Option GErr) :=
  match packets with
  | [] => .ok (none, none)
  | p0 :: _ =>
    if pids.length = 0 then .ok (some packets, none)
    else
      match NewPMT (concatPayloads packets) with
      | .crash => .crash
      | .errv _ => .crash
      | .ok u =>
        if (missingPids u p0.pid pids).length = pids.length then
          .ok (none, some (.errPIDNotInPMT (missingPids u p0.pid pids)))
        else
          match filterBuild (concatPayloads packets) pids with
          | .ok fFull =>
            .ok ((if (repack packets fFull).length = 0 then none
                  else some (repack packets fFull)),
              (if 0 < (missingPids u p0.pid pids).length then
                  some (.errPIDNotInPMT (missingPids u p0.pid pids))
                else none))
          | .errv e => .errv e
          | .crash => .crash

theorem safeSlice_take (b : List Nat) (e : Nat) : safeSlice b 0 e = b.take e := by
  unfold safeSlice goSlice
  by_cases h : e < b.length
  · rw [if_pos h]
    simp
  · rw [if_neg h]
    simp [List.take_of_length_le (by omega : b.length ≤ e)]

/-- Capacity in payload bytes of a header list. -/
def headCap (headers : List (List Nat)) : Nat :=
  (headers.map (fun h => PacketSize - h.length)).sum

theorem padPacket_header (h c : List Nat) (p : Nat) : (padPacket h c p).header = h := rfl

theorem padPacket_pid (h c : List Nat) (p : Nat) : (padPacket h c p).pid = p := rfl

theorem mkPackets_nil_buf (headers : List (List Nat)) (cpid : Nat) :
    mkPackets headers cpid [] = [] := by
  cases headers <;> simp [mkPackets]

/-- Repacking a buffer over canonically packetized packets is the canonical
packetization of that buffer, whenever it is no longer than the original. -/
theorem repack_mkPackets (headers : List (List Nat)) :
    ∀ (cpid : Nat) (buf f : List Nat), f.length ≤ buf.length →
      repack (mkPackets headers cpid buf) f = mkPackets headers cpid f := by
  induction headers with
  | nil =>
    intro cpid buf f hle
    simp [mkPackets, repack]
  | cons h rest ih =>
    intro cpid buf f hle
    rw [mkPackets]
    by_cases hbuf : buf.length = 0
    · rw [if_pos hbuf]
      have hf : f = [] := List.length_eq_zero.mp (by omega)
      subst hf
      simp [repack, mkPackets]
    · rw [if_neg hbuf, repack]
      by_cases hf : f.length = 0
      · rw [if_pos hf]
        have hf' : f = [] := List.length_eq_zero.mp hf
        subst hf'
        simp [mkPackets]
      · rw [if_neg hf]
        rw [mkPackets, if_neg hf]
        congr 1
        apply ih
        simp only [safeSlice_take, padPacket_header, List.length_take, List.length_drop]
        omega

/-- The payloads of a canonical packetization concatenate back to original
buffer followed by stuffing bytes, whenever the headers leave it room. -/
theorem concat_mkPackets (headers : List (List Nat)) :
    ∀ (cpid : Nat) (buf : List Nat), buf.length ≤ headCap headers →
      ∃ k, concatPayloads (mkPackets headers cpid buf) = buf ++ List.replicate k 0xFF := by
  induction headers with
  | nil =>
    intro cpid buf hcap
    have hb : buf = [] := by
      simp [headCap] at hcap
      first
      | exact hcap
      | exact List.length_eq_zero.mp hcap
      | exact List.length_eq_zero.mp (Nat.le_zero.mp hcap)
    subst hb
    exact ⟨0, by simp [mkPackets, concatPayloads]⟩
  | cons h rest ih =>
    intro cpid buf hcap
    rw [mkPackets]
    by_cases hbuf : buf.length = 0
    · have hb : buf = [] := List.length_eq_zero.mp hbuf
      subst hb
      exact ⟨0, by simp [concatPayloads]⟩
    · rw [if_neg hbuf, safeSlice_take]
      by_cases hfit : buf.length ≤ PacketSize - h.length
      · refine ⟨PacketSize - h.length - buf.length, ?_⟩
        have hchunk : buf.take (PacketSize - h.length) = buf := List.take_of_length_le hfit
        rw [hchunk]
        have hdrop : buf.drop buf.length = [] := by simp
        rw [hdrop, mkPackets_nil_buf]
        simp [concatPayloads, padPacket]
      · have hchunklen : (buf.take (PacketSize - h.length)).length
            = PacketSize - h.length := by
          rw [List.length_take]
          omega
        rw [hchunklen]
        have hcap' : (buf.drop (PacketSize - h.length)).length ≤ headCap rest := by
          rw [List.length_drop]
          simp [headCap] at hcap ⊢
          omega
        obtain ⟨k, hk⟩ := ih cpid (buf.drop (PacketSize - h.length)) hcap'
        refine ⟨k, ?_⟩
        simp only [concatPayloads, List.map_cons, List.flatten_cons]
        rw [show (padPacket h (buf.take (PacketSize - h.length)) cpid).payload
            = buf.take (PacketSize - h.length) from by simp [padPacket, hchunklen]]
        rw [show ((mkPackets rest cpid (buf.drop (PacketSize - h.length))).map
            (·.payload)).flatten = concatPayloads (mkPackets rest cpid
              (buf.drop (PacketSize - h.length))) from rfl]
        rw [hk, ← List.append_assoc, List.take_append_drop]

/-- The stream-filtering loop, run over a serialized stream region, returns
exactly the serialized blocks of the streams whose PIDs are requested. -/
theorem filterEsLoop_serialized (streams : List PmtElementaryStream) :
    ∀ (b : List Nat) (o bound : Nat) (pids : List Nat) (tail : List Nat),
      (∀ e ∈ streams, WFStream e) →
      b.drop o = esRegion streams ++ tail →
      4 ≤ tail.length →
      bound + 4 = o + (esRegion streams).length →
      filterEsLoop b bound o pids
        = .ok (esRegion (streams.filter (fun e => pidIn pids e.elementaryPid))) := by
  induction streams with
  | nil =>
    intro b o bound pids tail hwf hdrop htail hbound
    rw [filterEsLoop]
    have hnot : ¬ o < bound := by simp [esRegion] at hbound; omega
    rw [dif_neg hnot]
    simp [esRegion]
  | cons e rest ih =>
    intro b o bound pids tail hwf hdrop htail hbound
    obtain ⟨hst, hpid, hilb, hdwf⟩ := hwf e (by simp)
    have hregion : esRegion (e :: rest) = esBytes e ++ esRegion rest := by
      simp [esRegion]
    rw [hregion] at hdrop hbound
    rw [List.append_assoc] at hdrop
    have hesb : (esBytes e).length = 5 + (esInfoBytes e).length := by
      simp [esBytes]; omega
    have hlen0 := congrArg List.length hdrop
    rw [List.length_drop] at hlen0
    rw [List.length_append, hesb, List.length_append] at hlen0
    have hb : b.length
        = o + (5 + (esInfoBytes e).length) + (esRegion rest).length + tail.length := by
      omega
    have hlt : o < bound := by
      rw [List.length_append, hesb] at hbound; omega
    have hrd : o + 4 < b.length := by omega
    have hrd1 : b.getD (o + 1) 0 = 0xE0 ||| (e.elementaryPid >>> 8) := by
      rw [← getD_drop b o 1, hdrop]; simp [esBytes]
    have hrd2 : b.getD (o + 2) 0 = e.elementaryPid % 256 := by
      rw [← getD_drop b o 2, hdrop]; simp [esBytes]
    have hrd3 : b.getD (o + 3) 0 = 0xF0 ||| ((esInfoBytes e).length >>> 8) := by
      rw [← getD_drop b o 3, hdrop]; simp [esBytes]
    have hrd4 : b.getD (o + 4) 0 = (esInfoBytes e).length % 256 := by
      rw [← getD_drop b o 4, hdrop]; simp [esBytes]
    have hepid : ((b.getD (o + 1) 0) &&& 0x1f) <<< 8 ||| b.getD (o + 2) 0
        = e.elementaryPid := by
      rw [hrd1, hrd2, mask_e0 (by rw [Nat.shiftRight_eq_div_pow]; omega), shift_or_mod]
    have hilv : ((b.getD (o + 3) 0) &&& 0x0f) <<< 8 ||| b.getD (o + 4) 0
        = (esInfoBytes e).length := by
      rw [hrd3, hrd4, mask_f0 (by rw [Nat.shiftRight_eq_div_pow]; omega), shift_or_mod]
    have hdroprec : b.drop (o + 5 + (esInfoBytes e).length) = esRegion rest ++ tail := by
      have hdd : b.drop (o + 5 + (esInfoBytes e).length)
          = (b.drop o).drop (5 + (esInfoBytes e).length) := by
        rw [List.drop_drop]; congr 1; omega
      rw [hdd, hdrop]
      exact List.drop_left' hesb
    have hboundrec : bound + 4 = o + 5 + (esInfoBytes e).length + (esRegion rest).length := by
      rw [List.length_append, hesb] at hbound; omega
    have hrec := ih b (o + 5 + (esInfoBytes e).length) bound pids tail
      (fun x hx => hwf x (by simp [hx])) hdroprec htail hboundrec
    rw [filterEsLoop, dif_pos hlt, dif_pos hrd]
    simp only [hepid, hilv]
    by_cases hkeep : pidIn pids e.elementaryPid = true
    · rw [if_pos hkeep]
      rw [if_pos (by omega : o + 5 + (esInfoBytes e).length ≤ b.length)]
      rw [hrec]
      have hslice : goSlice b o (o + 5 + (esInfoBytes e).length) = esBytes e := by
        rw [show o + 5 + (esInfoBytes e).length = o + (5 + (esInfoBytes e).length) from by omega,
          goSlice_eq, hdrop]
        exact List.take_left' hesb
      rw [hslice]
      simp [esRegion, List.filter_cons, hkeep]
    · rw [if_neg hkeep]
      rw [hrec]
      simp only [List.filter_cons, hkeep]
      rw [if_neg (by simp [hkeep])]

theorem mask_b0_hi {h : Nat} (hh : h < 16) : (0xB0 ||| h) &&& 0xf0 = 0xB0 := by
  have : ∀ x < 16, (0xB0 ||| x) &&& 0xf0 = 0xB0 := by decide
  exact this h hh

theorem esRegion_filter_le (p : PmtElementaryStream → Bool)
    (streams : List PmtElementaryStream) :
    (esRegion (streams.filter p)).length ≤ (esRegion streams).length := by
  induction streams with
  | nil => simp [esRegion]
  | cons e rest ih =>
    by_cases hp : p e
    · simp only [List.filter_cons, hp, if_pos, esRegion, List.map_cons, List.flatten_cons,
        List.length_append] at ih ⊢
      omega
    · simp only [List.filter_cons, hp, esRegion, List.map_cons, List.flatten_cons,
        List.length_append, Bool.false_eq_true, if_false] at ih ⊢
      omega

theorem WFBody_filter (progInfo : List Nat) (streams : List PmtElementaryStream)
    (p : PmtElementaryStream → Bool) (hwf : WFBody progInfo streams) :
    WFBody progInfo (streams.filter p) := by
  obtain ⟨hpi, hS, hws⟩ := hwf
  refine ⟨hpi, ?_, fun e he => hws e (List.mem_of_mem_filter he)⟩
  have := esRegion_filter_le p streams
  omega

/-- The rewrite stage, applied to a canonical serialized PMT payload (with
any trailing bytes), reproduces exactly the canonical serialization of the
same PMT restricted to the requested PIDs: same header fields, same
program-info bytes, recomputed section-length bytes, fresh CRC. -/
theorem filterBuild_serialized (ver : Nat) (cni : Bool) (progNum pcrPid : Nat)
    (progInfo : List Nat) (streams : List PmtElementaryStream) (pad : List Nat)
    (pids : List Nat) (hwf : WFBody progInfo streams) :
    filterBuild (pmtBuf ver cni progNum pcrPid progInfo streams ++ pad) pids
      = .ok (pmtBuf ver cni progNum pcrPid progInfo
          (streams.filter (fun e => pidIn pids e.elementaryPid))) := by
  obtain ⟨hpi, hS, hws⟩ := hwf
  have hregl : (esRegion (streams.filter (fun e => pidIn pids e.elementaryPid))).length
      ≤ (esRegion streams).length := esRegion_filter_le _ _
  have h0 : (pmtBuf ver cni progNum pcrPid progInfo streams ++ pad).getD 0 0 = 0 := rfl
  have hBlen : (pmtBuf ver cni progNum pcrPid progInfo streams ++ pad).length
      = 17 + progInfo.length + (esRegion streams).length + pad.length := by
    simp [pmtBuf, pmtSection, sectionNoCRC, ComputeCRC]
    omega
  have hrlen : ((pmtBuf ver cni progNum pcrPid progInfo streams ++ pad).drop 1).length
      = 16 + progInfo.length + (esRegion streams).length + pad.length := by
    rw [List.length_drop, hBlen]
    omega
  have hassoc3 : (pmtBuf ver cni progNum pcrPid progInfo streams ++ pad).drop 1
      = ([0x02,
          0xB0 ||| ((13 + progInfo.length + (esRegion streams).length) >>> 8),
          (13 + progInfo.length + (esRegion streams).length) % 256,
          (progNum >>> 8) % 256, progNum % 256,
          0xC0 ||| (ver <<< 1) ||| (if cni then 1 else 0),
          0, 0, 0xE0 ||| ((pcrPid >>> 8) &&& 0x1f), pcrPid % 256,
          0xF0 ||| (progInfo.length >>> 8), progInfo.length % 256])
        ++ (progInfo ++ (esRegion streams
          ++ (ComputeCRC (sectionNoCRC ver cni progNum pcrPid progInfo streams) ++ pad))) := by
    simp [pmtBuf, pmtSection, sectionNoCRC]
  have hpil : progInfoLen ((pmtBuf ver cni progNum pcrPid progInfo streams ++ pad).drop 1)
      = progInfo.length := by
    have hraw : progInfoLen ((pmtBuf ver cni progNum pcrPid progInfo streams ++ pad).drop 1)
        = ((0xF0 ||| (progInfo.length >>> 8)) &&& 0x0f) <<< 8 ||| (progInfo.length % 256) := rfl
    rw [hraw, mask_f0 (by rw [Nat.shiftRight_eq_div_pow]; omega), shift_or_mod]
  have hsl : sectionLength ((pmtBuf ver cni progNum pcrPid progInfo streams ++ pad).drop 1)
      = 13 + progInfo.length + (esRegion streams).length := by
    have hraw : sectionLength ((pmtBuf ver cni progNum pcrPid progInfo streams ++ pad).drop 1)
        = ((0xB0 ||| ((13 + progInfo.length + (esRegion streams).length) >>> 8)) &&& 0x0f) <<< 8
          ||| ((13 + progInfo.length + (esRegion streams).length) % 256) := rfl
    rw [hraw, mask_b0 (by rw [Nat.shiftRight_eq_div_pow]; omega), shift_or_mod]
  have hdropregion :
      ((pmtBuf ver cni progNum pcrPid progInfo streams ++ pad).drop 1).drop
          (12 + progInfo.length)
        = esRegion streams
          ++ (ComputeCRC (sectionNoCRC ver cni progNum pcrPid progInfo streams) ++ pad) := by
    rw [hassoc3, ← List.append_assoc]
    refine List.drop_left' ?_
    simp
    omega
  have hfes := filterEsLoop_serialized streams
    ((pmtBuf ver cni progNum pcrPid progInfo streams ++ pad).drop 1)
    (12 + progInfo.length)
    (13 + progInfo.length + (esRegion streams).length - 5) pids
    (ComputeCRC (sectionNoCRC ver cni progNum pcrPid progInfo streams) ++ pad) hws
    hdropregion
    (by simp [ComputeCRC])
    (by omega)
  rw [filterBuild, h0, Nat.zero_add]
  rw [if_pos (show (1 : Nat) ≤ (pmtBuf ver cni progNum pcrPid progInfo streams ++ pad).length
    by rw [hBlen]; omega)]
  rw [if_pos (show (12 : Nat)
      ≤ ((pmtBuf ver cni progNum pcrPid progInfo streams ++ pad).drop 1).length
    by rw [hrlen]; omega)]
  rw [if_pos (Or.inr (show
      12 + progInfoLen ((pmtBuf ver cni progNum pcrPid progInfo streams ++ pad).drop 1)
        ≤ ((pmtBuf ver cni progNum pcrPid progInfo streams ++ pad).drop 1).length
    by rw [hpil, hrlen]; omega))]
  rw [hpil, hsl]
  rw [show esBound (13 + progInfo.length + (esRegion streams).length)
      = 13 + progInfo.length + (esRegion streams).length - 5 from by
    unfold esBound
    rw [if_pos (by omega)]]
  rw [hfes]
  rw [show (pmtBuf ver cni progNum pcrPid progInfo streams ++ pad).take 1 = [0] from rfl]
  rw [show ((pmtBuf ver cni progNum pcrPid progInfo streams ++ pad).drop 1).take 12
      = [0x02,
          0xB0 ||| ((13 + progInfo.length + (esRegion streams).length) >>> 8),
          (13 + progInfo.length + (esRegion streams).length) % 256,
          (progNum >>> 8) % 256, progNum % 256,
          0xC0 ||| (ver <<< 1) ||| (if cni then 1 else 0),
          0, 0, 0xE0 ||| ((pcrPid >>> 8) &&& 0x1f), pcrPid % 256,
          0xF0 ||| (progInfo.length >>> 8), progInfo.length % 256] from by
    rw [hassoc3]
    exact List.take_left' rfl]
  rw [show (if progInfo.length = 0 then []
      else goSlice ((pmtBuf ver cni progNum pcrPid progInfo streams ++ pad).drop 1) 12
        (12 + progInfo.length)) = progInfo from by
    by_cases hpi0 : progInfo.length = 0
    · rw [if_pos hpi0]
      exact (List.length_eq_zero.mp hpi0).symm
    · rw [if_neg hpi0, goSlice_eq]
      rw [show ((pmtBuf ver cni progNum pcrPid progInfo streams ++ pad).drop 1).drop 12
          = progInfo ++ (esRegion streams
            ++ (ComputeCRC (sectionNoCRC ver cni progNum pcrPid progInfo streams) ++ pad))
        from by
          rw [hassoc3]
          exact List.drop_left' rfl]
      exact List.take_left' rfl]
  refine congrArg GoR.ok ?_
  have hFlen : ([0] ++
      ([0x02,
        0xB0 ||| ((13 + progInfo.length + (esRegion streams).length) >>> 8),
        (13 + progInfo.length + (esRegion streams).length) % 256,
        (progNum >>> 8) % 256, progNum % 256,
        0xC0 ||| (ver <<< 1) ||| (if cni then 1 else 0),
        0, 0, 0xE0 ||| ((pcrPid >>> 8) &&& 0x1f), pcrPid % 256,
        0xF0 ||| (progInfo.length >>> 8), progInfo.length % 256]
        ++ (progInfo
          ++ esRegion (streams.filter (fun e => pidIn pids e.elementaryPid))))).length
      = 13 + progInfo.length
        + (esRegion (streams.filter (fun e => pidIn pids e.elementaryPid))).length := by
    simp
    omega
  have hnewS : newSecLen 1 (13 + progInfo.length
      + (esRegion (streams.filter (fun e => pidIn pids e.elementaryPid))).length)
      = 13 + progInfo.length
        + (esRegion (streams.filter (fun e => pidIn pids e.elementaryPid))).length := by
    unfold newSecLen
    omega
  have hpatch : patchSection 1 ([0] ++
      ([0x02,
        0xB0 ||| ((13 + progInfo.length + (esRegion streams).length) >>> 8),
        (13 + progInfo.length + (esRegion streams).length) % 256,
        (progNum >>> 8) % 256, progNum % 256,
        0xC0 ||| (ver <<< 1) ||| (if cni then 1 else 0),
        0, 0, 0xE0 ||| ((pcrPid >>> 8) &&& 0x1f), pcrPid % 256,
        0xF0 ||| (progInfo.length >>> 8), progInfo.length % 256]
        ++ (progInfo
          ++ esRegion (streams.filter (fun e => pidIn pids e.elementaryPid)))))
      = 0 :: sectionNoCRC ver cni progNum pcrPid progInfo
          (streams.filter (fun e => pidIn pids e.elementaryPid)) := by
    unfold patchSection
    rw [hFlen, hnewS]
    rw [show ([0] ++
        ([0x02,
          0xB0 ||| ((13 + progInfo.length + (esRegion streams).length) >>> 8),
          (13 + progInfo.length + (esRegion streams).length) % 256,
          (progNum >>> 8) % 256, progNum % 256,
          0xC0 ||| (ver <<< 1) ||| (if cni then 1 else 0),
          0, 0, 0xE0 ||| ((pcrPid >>> 8) &&& 0x1f), pcrPid % 256,
          0xF0 ||| (progInfo.length >>> 8), progInfo.length % 256]
          ++ (progInfo
            ++ esRegion (streams.filter (fun e => pidIn pids e.elementaryPid))))).getD 2 0
        = 0xB0 ||| ((13 + progInfo.length + (esRegion streams).length) >>> 8) from rfl]
    rw [mask_b0_hi (by rw [Nat.shiftRight_eq_div_pow]; omega)]
    simp [sectionNoCRC, List.set]
  simp only [patchAndCRC, List.append_assoc]
  rw [hpatch]
  simp [pmtBuf, pmtSection]

theorem stuffingPad_replicate (k : Nat) : StuffingPad (List.replicate k 0xFF) := by
  cases k with
  | zero => exact Or.inl (by simp)
  | succ n => exact Or.inr (by simp)

theorem pmtBuf_length (ver : Nat) (cni : Bool) (progNum pcrPid : Nat)
    (progInfo : List Nat) (streams : List PmtElementaryStream) :
    (pmtBuf ver cni progNum pcrPid progInfo streams).length
      = 17 + progInfo.length + (esRegion streams).length := by
  simp [pmtBuf, pmtSection, sectionNoCRC, ComputeCRC]
  omega

/-- One step of FilterPMTPacketsToPids after a successful parse of the
concatenated payload. -/
theorem filter_cons_ok (p0 : GoPacket) (ps : List GoPacket) (pids : List Nat) (u : Pmt)
    (f : List Nat) (hne : ¬ pids.length = 0)
    (hparse : NewPMT (concatPayloads (p0 :: ps)) = .ok u)
    (hbuild : filterBuild (concatPayloads (p0 :: ps)) pids = .ok f) :
    FilterPMTPacketsToPids (p0 :: ps) pids
      = if (missingPids u p0.pid pids).length = pids.length then
          .ok (none, some (.errPIDNotInPMT (missingPids u p0.pid pids)))
        else
          .ok ((if (repack (p0 :: ps) f).length = 0 then none
                else some (repack (p0 :: ps) f)),
            (if 0 < (missingPids u p0.pid pids).length then
                some (.errPIDNotInPMT (missingPids u p0.pid pids))
              else none)) := by
  rw [FilterPMTPacketsToPids, if_neg hne, hparse, hbuild]

theorem mkPackets_cons (h : List Nat) (rest : List (List Nat)) (cpid : Nat) (buf : List Nat)
    (hbuf : ¬ buf.length = 0) :
    mkPackets (h :: rest) cpid buf
      = padPacket h (safeSlice buf 0 (PacketSize - h.length)) cpid
        :: mkPackets rest cpid (buf.drop (safeSlice buf 0 (PacketSize - h.length)).length) := by
  rw [mkPackets, if_neg hbuf]

/-- Evaluation of FilterPMTPacketsToPids on a canonically packetized,
well-formed PMT, for any nonempty requested-PID list: either every requested
PID is counted missing and the result is (nil, error), or the rewritten,
filtered PMT is repacketized over the original headers, with an error listing
the missing PIDs exactly when there are any. -/
theorem filter_canonical_eval (hs : List (List Nat)) (cpid ver progNum pcrPid : Nat)
    (cni : Bool) (progInfo : List Nat) (streams : List PmtElementaryStream) (pids : List Nat)
    (hver : ver < 32) (hwf : WFBody progInfo streams)
    (hcap : (pmtBuf ver cni progNum pcrPid progInfo streams).length ≤ headCap hs)
    (hne : pids ≠ []) :
    FilterPMTPacketsToPids (mkPackets hs cpid (pmtBuf ver cni progNum pcrPid progInfo streams))
        pids
      = if (missingPids ⟨streams.map (·.elementaryPid), streams, ver, cni⟩ cpid pids).length
            = pids.length
        then .ok (none, some (.errPIDNotInPMT
            (missingPids ⟨streams.map (·.elementaryPid), streams, ver, cni⟩ cpid pids)))
        else .ok (some (mkPackets hs cpid (pmtBuf ver cni progNum pcrPid progInfo
              (streams.filter (fun e => pidIn pids e.elementaryPid)))),
            (if 0 < (missingPids ⟨streams.map (·.elementaryPid), streams, ver, cni⟩
                cpid pids).length
              then some (.errPIDNotInPMT
                (missingPids ⟨streams.map (·.elementaryPid), streams, ver, cni⟩ cpid pids))
              else none)) := by
  have hbuflen := pmtBuf_length ver cni progNum pcrPid progInfo streams
  have hbufpos : ¬ (pmtBuf ver cni progNum pcrPid progInfo streams).length = 0 := by
    rw [hbuflen]; omega
  obtain ⟨h, hs', rfl⟩ : ∃ h hs', hs = h :: hs' := by
    cases hs with
    | nil => exfalso; rw [hbuflen] at hcap; simp [headCap] at hcap
    | cons a b => exact ⟨a, b, rfl⟩
  obtain ⟨k, hk⟩ := concat_mkPackets (h :: hs') cpid
    (pmtBuf ver cni progNum pcrPid progInfo streams) hcap
  have hparse : NewPMT (concatPayloads (mkPackets (h :: hs') cpid
      (pmtBuf ver cni progNum pcrPid progInfo streams)))
      = .ok ⟨streams.map (·.elementaryPid), streams, ver, cni⟩ := by
    rw [hk]
    exact NewPMT_serialized ver cni progNum pcrPid progInfo streams _ hver hwf
      (stuffingPad_replicate k)
  have hfb : filterBuild (concatPayloads (mkPackets (h :: hs') cpid
      (pmtBuf ver cni progNum pcrPid progInfo streams))) pids
      = .ok (pmtBuf ver cni progNum pcrPid progInfo
          (streams.filter (fun e => pidIn pids e.elementaryPid))) := by
    rw [hk]
    exact filterBuild_serialized ver cni progNum pcrPid progInfo streams _ pids hwf
  have hkept : (pmtBuf ver cni progNum pcrPid progInfo
      (streams.filter (fun e => pidIn pids e.elementaryPid))).length
      ≤ (pmtBuf ver cni progNum pcrPid progInfo streams).length := by
    rw [pmtBuf_length, pmtBuf_length]
    have := esRegion_filter_le (fun e => pidIn pids e.elementaryPid) streams
    omega
  have hrepk : repack (mkPackets (h :: hs') cpid
      (pmtBuf ver cni progNum pcrPid progInfo streams))
      (pmtBuf ver cni progNum pcrPid progInfo
        (streams.filter (fun e => pidIn pids e.elementaryPid)))
      = mkPackets (h :: hs') cpid (pmtBuf ver cni progNum pcrPid progInfo
          (streams.filter (fun e => pidIn pids e.elementaryPid))) :=
    repack_mkPackets (h :: hs') cpid _ _ hkept
  have houtne : ¬ (mkPackets (h :: hs') cpid (pmtBuf ver cni progNum pcrPid progInfo
      (streams.filter (fun e => pidIn pids e.elementaryPid)))).length = 0 := by
    rw [mkPackets_cons _ _ _ _ (by rw [pmtBuf_length]; omega)]
    simp
  rw [mkPackets_cons _ _ _ _ hbufpos] at hparse hfb hrepk ⊢
  rw [filter_cons_ok _ _ _ _ _ (by simpa using hne) hparse hfb]
  rw [padPacket_pid]
  by_cases hm : (missingPids ⟨streams.map (·.elementaryPid), streams, ver, cni⟩
      cpid pids).length = pids.length
  · rw [if_pos hm, if_pos hm]
  · rw [if_neg hm, if_neg hm, hrepk, if_neg houtne]

theorem pidExists_map (streams : List PmtElementaryStream) (ver : Nat) (cni : Bool) (q : Nat) :
    Pmt.PIDExists ⟨streams.map (·.elementaryPid), streams, ver, cni⟩ q = true
      ↔ q ∈ streams.map (·.elementaryPid) := by
  simp [Pmt.PIDExists]

theorem missingPids_all_absent (streams : List PmtElementaryStream) (ver : Nat) (cni : Bool)
    (cpid : Nat) (pids : List Nat)
    (h : ∀ q ∈ pids, q ∉ streams.map (·.elementaryPid) ∧ q ≠ PatPid ∧ q ≠ cpid) :
    missingPids ⟨streams.map (·.elementaryPid), streams, ver, cni⟩ cpid pids = pids := by
  unfold missingPids
  refine List.filter_eq_self.mpr (fun q hq => ?_)
  obtain ⟨h1, h2, h3⟩ := h q hq
  simp [Pmt.PIDExists]
  exact ⟨⟨by simpa using h1, h2⟩, h3⟩

theorem missingPids_none (streams : List PmtElementaryStream) (ver : Nat) (cni : Bool)
    (cpid : Nat) (pids : List Nat)
    (h : ∀ q ∈ pids, q ∈ streams.map (·.elementaryPid) ∨ q = PatPid ∨ q = cpid) :
    missingPids ⟨streams.map (·.elementaryPid), streams, ver, cni⟩ cpid pids = [] := by
  unfold missingPids
  refine List.filter_eq_nil.mpr (fun q hq => ?_)
  rcases h q hq with h1 | h1 | h1 <;> simp [Pmt.PIDExists, h1]

theorem missingPids_lt (streams : List PmtElementaryStream) (ver : Nat) (cni : Bool)
    (cpid : Nat) (pids : List Nat) (q : Nat)
    (hq : q ∈ pids) (hp : q ∈ streams.map (·.elementaryPid)) :
    (missingPids ⟨streams.map (·.elementaryPid), streams, ver, cni⟩ cpid pids).length
      < pids.length := by
  unfold missingPids
  refine List.length_filter_lt_length_iff_exists.mpr ⟨q, hq, ?_⟩
  simp [Pmt.PIDExists, hp]

theorem missingPids_pos (streams : List PmtElementaryStream) (ver : Nat) (cni : Bool)
    (cpid : Nat) (pids : List Nat) (q : Nat)
    (hq : q ∈ pids) (h1 : q ∉ streams.map (·.elementaryPid)) (h2 : q ≠ PatPid)
    (h3 : q ≠ cpid) :
    0 < (missingPids ⟨streams.map (·.elementaryPid), streams, ver, cni⟩ cpid pids).length := by
  have hmem : q ∈ missingPids ⟨streams.map (·.elementaryPid), streams, ver, cni⟩ cpid pids := by
    unfold missingPids
    refine List.mem_filter.mpr ⟨hq, ?_⟩
    simp [Pmt.PIDExists]
    exact ⟨⟨by simpa using h1, h2⟩, h3⟩
  exact List.length_pos_of_mem hmem

theorem filter_pidIn_self (streams : List PmtElementaryStream) :
    streams.filter (fun e => pidIn (streams.map (·.elementaryPid)) e.elementaryPid)
      = streams := by
  refine List.filter_eq_self.mpr (fun e he => ?_)
  simp [pidIn]
  exact ⟨e, he, rfl⟩

theorem filter_pidIn_nil (streams : List PmtElementaryStream) (pids : List Nat)
    (h : ∀ e ∈ streams, e.elementaryPid ∉ pids) :
    streams.filter (fun e => pidIn pids e.elementaryPid) = [] := by
  refine List.filter_eq_nil.mpr (fun e he => ?_)
  simp [pidIn]
  exact h e he

/-- C4: filtering a canonically packetized, well-formed PMT to exactly its own
elementary-stream PIDs returns the original packets unchanged with no error
(so the rebuilt section-length and CRC bytes are byte-identical to the
original), and re-parsing the concatenated payloads of the returned packets
yields exactly the same elementary streams, in the same order, with the
parallel PID list. -/
theorem c4_filter_roundtrip (hs : List (List Nat)) (cpid ver progNum pcrPid : Nat)
    (cni : Bool) (progInfo : List Nat) (streams : List PmtElementaryStream)
    (hver : ver < 32) (hwf : WFBody progInfo streams)
    (hcap : (pmtBuf ver cni progNum pcrPid progInfo streams).length ≤ headCap hs)
    (hsne : streams ≠ []) :
    FilterPMTPacketsToPids (mkPackets hs cpid (pmtBuf ver cni progNum pcrPid progInfo streams))
        (streams.map (·.elementaryPid))
      = .ok (some (mkPackets hs cpid (pmtBuf ver cni progNum pcrPid progInfo streams)), none)
    ∧ NewPMT (concatPayloads
        (mkPackets hs cpid (pmtBuf ver cni progNum pcrPid progInfo streams)))
      = .ok ⟨streams.map (·.elementaryPid), streams, ver, cni⟩ := by
  have hne : streams.map (·.elementaryPid) ≠ [] :=
    fun h0 => hsne (List.map_eq_nil.mp h0)
  have hplen : (streams.map (·.elementaryPid)).length ≠ 0 :=
    fun h0 => hne (List.length_eq_zero.mp h0)
  constructor
  · rw [filter_canonical_eval hs cpid ver progNum pcrPid cni progInfo streams
      (streams.map (·.elementaryPid)) hver hwf hcap hne]
    rw [missingPids_none streams ver cni cpid (streams.map (·.elementaryPid))
      (fun q hq => Or.inl hq)]
    rw [if_neg (fun h => hplen (by simpa using h.symm))]
    rw [filter_pidIn_self streams]
    rw [if_neg (by simp)]
  · obtain ⟨k, hk⟩ := concat_mkPackets hs cpid
      (pmtBuf ver cni progNum pcrPid progInfo streams) hcap
    rw [hk]
    exact NewPMT_serialized ver cni progNum pcrPid progInfo streams _ hver hwf
      (stuffingPad_replicate k)

/-- Witness for C4 at a concrete one-stream PMT in a single packet. -/
theorem c4_filter_roundtrip_witness :
    FilterPMTPacketsToPids
        (mkPackets [[0x47, 0x00, 0x20, 0x10]] 0x20
          (pmtBuf 1 true 1 0x65 [] [⟨0x1B, 0x65, []⟩]))
        (([⟨0x1B, 0x65, []⟩] : List PmtElementaryStream).map (·.elementaryPid))
      = .ok (some (mkPackets [[0x47, 0x00, 0x20, 0x10]] 0x20
          (pmtBuf 1 true 1 0x65 [] [⟨0x1B, 0x65, []⟩])), none)
    ∧ NewPMT (concatPayloads
        (mkPackets [[0x47, 0x00, 0x20, 0x10]] 0x20
          (pmtBuf 1 true 1 0x65 [] [⟨0x1B, 0x65, []⟩])))
      = .ok ⟨([⟨0x1B, 0x65, []⟩] : List PmtElementaryStream).map (·.elementaryPid),
          [⟨0x1B, 0x65, []⟩], 1, true⟩ :=
  c4_filter_roundtrip [[0x47, 0x00, 0x20, 0x10]] 0x20 1 1 0x65 true [] [⟨0x1B, 0x65, []⟩]
    (by decide) (by decide) (by rw [pmtBuf_length]; simp [headCap, esRegion, esBytes]; decide)
    (by decide)

/-- C10: for a canonically packetized, well-formed PMT and a nonempty pid list
whose every entry is the PAT PID or the PMT's own carrying PID and which is
disjoint from the elementary-stream PIDs, FilterPMTPacketsToPids counts no PID
as missing and returns, with a nil error, rebuilt packets whose concatenated
payload parses to a valid PMT with an empty elementary-stream list. -/
theorem c10_filter_strips_all (hs : List (List Nat)) (cpid ver progNum pcrPid : Nat)
    (cni : Bool) (progInfo : List Nat) (streams : List PmtElementaryStream)
    (pids : List Nat)
    (hver : ver < 32) (hwf : WFBody progInfo streams)
    (hcap : (pmtBuf ver cni progNum pcrPid progInfo streams).length ≤ headCap hs)
    (hne : pids ≠ [])
    (hpids : ∀ q ∈ pids, q = PatPid ∨ q = cpid)
    (hdisj : ∀ e ∈ streams, e.elementaryPid ∉ pids) :
    FilterPMTPacketsToPids (mkPackets hs cpid (pmtBuf ver cni progNum pcrPid progInfo streams))
        pids
      = .ok (some (mkPackets hs cpid (pmtBuf ver cni progNum pcrPid progInfo [])), none)
    ∧ NewPMT (concatPayloads (mkPackets hs cpid (pmtBuf ver cni progNum pcrPid progInfo [])))
      = .ok ⟨[], [], ver, cni⟩ := by
  have hplen : pids.length ≠ 0 := fun h0 => hne (List.length_eq_zero.mp h0)
  have hwfe : WFBody progInfo [] := by
    obtain ⟨hpi, hS, _⟩ := hwf
    refine ⟨hpi, ?_, by simp⟩
    simp [esRegion]
    omega
  constructor
  · rw [filter_canonical_eval hs cpid ver progNum pcrPid cni progInfo streams pids
      hver hwf hcap hne]
    rw [missingPids_none streams ver cni cpid pids
      (fun q hq => (hpids q hq).elim (fun h => Or.inr (Or.inl h)) (fun h => Or.inr (Or.inr h)))]
    rw [if_neg (fun h => hplen (by simpa using h.symm))]
    rw [filter_pidIn_nil streams pids hdisj]
    rw [if_neg (by simp)]
  · have hcap0 : (pmtBuf ver cni progNum pcrPid progInfo []).length ≤ headCap hs := by
      rw [pmtBuf_length] at hcap ⊢
      simp [esRegion] at hcap ⊢
      omega
    obtain ⟨k, hk⟩ := concat_mkPackets hs cpid
      (pmtBuf ver cni progNum pcrPid progInfo []) hcap0
    rw [hk]
    have hres := NewPMT_serialized ver cni progNum pcrPid progInfo [] _ hver hwfe
      (stuffingPad_replicate k)
    simpa using hres

/-- Witness for C10: strip the only stream by requesting just the PAT PID and
the carrying PID. -/
theorem c10_filter_strips_all_witness :
    FilterPMTPacketsToPids
        (mkPackets [[0x47, 0x00, 0x20, 0x10]] 0x20
          (pmtBuf 1 true 1 0x65 [] [⟨0x1B, 0x65, []⟩]))
        [PatPid, 0x20]
      = .ok (some (mkPackets [[0x47, 0x00, 0x20, 0x10]] 0x20
          (pmtBuf 1 true 1 0x65 [] [])), none)
    ∧ NewPMT (concatPayloads
        (mkPackets [[0x47, 0x00, 0x20, 0x10]] 0x20 (pmtBuf 1 true 1 0x65 [] [])))
      = .ok ⟨[], [], 1, true⟩ :=
  c10_filter_strips_all [[0x47, 0x00, 0x20, 0x10]] 0x20 1 1 0x65 true [] [⟨0x1B, 0x65, []⟩]
    [PatPid, 0x20]
    (by decide) (by decide) (by rw [pmtBuf_length]; simp [headCap, esRegion, esBytes]; decide)
    (by decide) (by decide) (by decide)

/-- C3: the error contract of FilterPMTPacketsToPids. An empty packet list
returns (nil, nil); a nonempty packet list with an empty pid list returns the
original packets with nil error; over a canonically packetized well-formed PMT
with a nonempty pid list: if every requested PID is absent from the PMT (and is
neither the PAT PID nor the carrying PID) the result is (nil, error naming the
missing PIDs); if some requested PID is present and some is missing the result
is a nonempty packet list together with an error naming the missing PIDs; if
every requested PID is present the result is packets with nil error. -/
theorem c3_filter_contract (hs : List (List Nat)) (cpid ver progNum pcrPid : Nat)
    (cni : Bool) (progInfo : List Nat) (streams : List PmtElementaryStream)
    (pids pids2 : List Nat) (p : GoPacket) (ps : List GoPacket)
    (hver : ver < 32) (hwf : WFBody progInfo streams)
    (hcap : (pmtBuf ver cni progNum pcrPid progInfo streams).length ≤ headCap hs)
    (hne : pids ≠ []) :
    (FilterPMTPacketsToPids [] pids2 = .ok (none, none))
    ∧ (FilterPMTPacketsToPids (p :: ps) [] = .ok (some (p :: ps), none))
    ∧ ((∀ q ∈ pids, q ∉ streams.map (·.elementaryPid) ∧ q ≠ PatPid ∧ q ≠ cpid) →
        FilterPMTPacketsToPids
            (mkPackets hs cpid (pmtBuf ver cni progNum pcrPid progInfo streams)) pids
          = .ok (none, some (.errPIDNotInPMT pids)))
    ∧ ((∃ q ∈ pids, q ∈ streams.map (·.elementaryPid)) →
        (∃ q ∈ pids, q ∉ streams.map (·.elementaryPid) ∧ q ≠ PatPid ∧ q ≠ cpid) →
        FilterPMTPacketsToPids
            (mkPackets hs cpid (pmtBuf ver cni progNum pcrPid progInfo streams)) pids
          = .ok (some (mkPackets hs cpid (pmtBuf ver cni progNum pcrPid progInfo
                (streams.filter (fun e => pidIn pids e.elementaryPid)))),
              some (.errPIDNotInPMT
                (missingPids ⟨streams.map (·.elementaryPid), streams, ver, cni⟩ cpid pids))))
    ∧ ((∀ q ∈ pids, q ∈ streams.map (·.elementaryPid)) →
        FilterPMTPacketsToPids
            (mkPackets hs cpid (pmtBuf ver cni progNum pcrPid progInfo streams)) pids
          = .ok (some (mkPackets hs cpid (pmtBuf ver cni progNum pcrPid progInfo
                (streams.filter (fun e => pidIn pids e.elementaryPid)))), none)) := by
  have hplen : pids.length ≠ 0 := fun h0 => hne (List.length_eq_zero.mp h0)
  refine ⟨rfl, rfl, ?_, ?_, ?_⟩
  · intro h
    rw [filter_canonical_eval hs cpid ver progNum pcrPid cni progInfo streams pids
      hver hwf hcap hne]
    rw [missingPids_all_absent streams ver cni cpid pids h]
    rw [if_pos rfl]
  · intro ⟨q, hq, hp⟩ ⟨q', hq', h1, h2, h3⟩
    rw [filter_canonical_eval hs cpid ver progNum pcrPid cni progInfo streams pids
      hver hwf hcap hne]
    have hlt := missingPids_lt streams ver cni cpid pids q hq hp
    have hpos := missingPids_pos streams ver cni cpid pids q' hq' h1 h2 h3
    rw [if_neg (by omega), if_pos hpos]
  · intro h
    rw [filter_canonical_eval hs cpid ver progNum pcrPid cni progInfo streams pids
      hver hwf hcap hne]
    rw [missingPids_none streams ver cni cpid pids (fun q hq => Or.inl (h q hq))]
    rw [if_neg (fun h0 => hplen (by simpa using h0.symm))]
    rw [if_neg (by simp)]

/-- Witness for C3 at concrete packets, a one-stream PMT and pid list [0x65]. -/
theorem c3_filter_contract_witness :
    (FilterPMTPacketsToPids [] [5] = .ok (none, none))
    ∧ (FilterPMTPacketsToPids ((⟨[0x47], [1, 2], 7⟩ : GoPacket) :: []) []
        = .ok (some ((⟨[0x47], [1, 2], 7⟩ : GoPacket) :: []), none))
    ∧ ((∀ q ∈ [0x65],
          q ∉ ([⟨0x1B, 0x65, []⟩] : List PmtElementaryStream).map (·.elementaryPid)
            ∧ q ≠ PatPid ∧ q ≠ 0x20) →
        FilterPMTPacketsToPids
            (mkPackets [[0x47, 0x00, 0x20, 0x10]] 0x20
              (pmtBuf 1 true 1 0x65 [] [⟨0x1B, 0x65, []⟩])) [0x65]
          = .ok (none, some (.errPIDNotInPMT [0x65])))
    ∧ ((∃ q ∈ [0x65],
          q ∈ ([⟨0x1B, 0x65, []⟩] : List PmtElementaryStream).map (·.elementaryPid)) →
        (∃ q ∈ [0x65],
          q ∉ ([⟨0x1B, 0x65, []⟩] : List PmtElementaryStream).map (·.elementaryPid)
            ∧ q ≠ PatPid ∧ q ≠ 0x20) →
        FilterPMTPacketsToPids
            (mkPackets [[0x47, 0x00, 0x20, 0x10]] 0x20
              (pmtBuf 1 true 1 0x65 [] [⟨0x1B, 0x65, []⟩])) [0x65]
          = .ok (some (mkPackets [[0x47, 0x00, 0x20, 0x10]] 0x20
                (pmtBuf 1 true 1 0x65 []
                  (([⟨0x1B, 0x65, []⟩] : List PmtElementaryStream).filter
                    (fun e => pidIn [0x65] e.elementaryPid)))),
              some (.errPIDNotInPMT
                (missingPids
                  ⟨([⟨0x1B, 0x65, []⟩] : List PmtElementaryStream).map (·.elementaryPid),
                    [⟨0x1B, 0x65, []⟩], 1, true⟩ 0x20 [0x65]))))
    ∧ ((∀ q ∈ [0x65],
          q ∈ ([⟨0x1B, 0x65, []⟩] : List PmtElementaryStream).map (·.elementaryPid)) →
        FilterPMTPacketsToPids
            (mkPackets [[0x47, 0x00, 0x20, 0x10]] 0x20
              (pmtBuf 1 true 1 0x65 [] [⟨0x1B, 0x65, []⟩])) [0x65]
          = .ok (some (mkPackets [[0x47, 0x00, 0x20, 0x10]] 0x20
                (pmtBuf 1 true 1 0x65 []
                  (([⟨0x1B, 0x65, []⟩] : List PmtElementaryStream).filter
                    (fun e => pidIn [0x65] e.elementaryPid)))), none)) :=
  c3_filter_contract [[0x47, 0x00, 0x20, 0x10]] 0x20 1 1 0x65 true [] [⟨0x1B, 0x65, []⟩]
    [0x65] [5] ⟨[0x47], [1, 2], 7⟩ []
    (by decide) (by decide) (by rw [pmtBuf_length]; simp [headCap, esRegion, esBytes]; decide)
    (by decide)

/-- C6: ExtractCRC rejects payloads under 4 bytes and returns the big-endian
32-bit word ending at offset 4 + section_length when that offset is in bounds;
but its bounds check (CanBuildPMT, `section_length ≤ length`) does not imply
`4 + section_length ≤ length`, so a 4-byte payload declaring section length 4
passes the check and the CRC slice faults instead of returning a parse error:
the guard the specification describes does not protect the slice. -/
theorem c6_extract_crc_bounds_bug :
    ExtractCRC [0x00, 0x02, 0xB0, 0x04, 0x01, 0x02, 0x03, 0x04] = .ok 0x01020304
    ∧ SectionLength [0x00, 0x02, 0xB0, 0x04] = .ok 4
    ∧ ¬ ([0x00, 0x02, 0xB0, 0x04] : List Nat).length < 4
    ∧ CanBuildPMT [0x00, 0x02, 0xB0, 0x04] 4 = true
    ∧ ExtractCRC [0x00, 0x02, 0xB0, 0x04] = .crash := by decide

theorem esLoop_pids_map (b : List Nat) (fuel : Nat) :
    ∀ (bound offset : Nat) (pids : List Nat) (streams : List PmtElementaryStream)
      (pr : List Nat × List PmtElementaryStream),
      bound - offset ≤ fuel →
      esLoop b bound offset pids streams = .ok pr →
      pids = streams.map (·.elementaryPid) →
      pr.1 = pr.2.map (·.elementaryPid) := by
  induction fuel with
  | zero =>
    intro bound offset pids streams pr hf hok hmap
    rw [esLoop, dif_neg (by omega)] at hok
    injection hok with h1
    subst h1
    simpa using hmap
  | succ n ih =>
    intro bound offset pids streams pr hf hok hmap
    by_cases h : offset < bound
    · rw [esLoop, dif_pos h] at hok
      by_cases hr : offset + 4 < b.length
      · rw [dif_pos hr] at hok
        split at hok
        · split at hok
          · exact ih _ _ _ _ _ (by omega) hok (by simp [hmap])
          · simp at hok
          · simp at hok
        · exact ih _ _ _ _ _ (by omega) hok (by simp [hmap])
      · rw [dif_neg hr] at hok
        simp at hok
    · rw [esLoop, dif_neg h] at hok
      injection hok with h1
      subst h1
      simpa using hmap

theorem parsePMTSection_pids_map (b : List Nat) (p : Pmt)
    (h : parsePMTSection b = .ok p) :
    p.pids = p.elementaryStreams.map (·.elementaryPid) := by
  unfold parsePMTSection at h
  split at h
  · split at h
    · simp at h
    · split at h
      · next pids streams heq =>
        injection h with h1
        subst h1
        simpa using esLoop_pids_map b _ _ _ [] [] (pids, streams) (le_refl _) heq (by simp)
      · simp at h
      · simp at h
  · simp at h

theorem parseTables_pids_map (fuel : Nat) :
    ∀ (s : List Nat) (acc p : Pmt),
      s.length ≤ fuel →
      acc.pids = acc.elementaryStreams.map (·.elementaryPid) →
      parseTables s acc = .ok p →
      p.pids = p.elementaryStreams.map (·.elementaryPid) := by
  induction fuel with
  | zero =>
    intro s acc p hf hacc hok
    rw [parseTables, dif_neg (fun hc => absurd hc.1 (by omega))] at hok
    injection hok with h1
    subst h1
    exact hacc
  | succ n ih =>
    intro s acc p hf hacc hok
    rw [parseTables] at hok
    split at hok
    · next hcond =>
      split at hok
      · next hfit =>
        split at hok
        · split at hok
          · next q heq =>
            refine ih _ _ _ ?_ (parsePMTSection_pids_map _ _ heq) hok
            simp only [List.length_drop]
            omega
          · simp at hok
          · simp at hok
        · refine ih _ _ _ ?_ hacc hok
          simp only [List.length_drop]
          omega
      · simp at hok
    · injection hok with h1
      subst h1
      exact hacc

theorem NewPMT_pids_map (b : List Nat) (p : Pmt) (h : NewPMT b = .ok p) :
    p.pids = p.elementaryStreams.map (·.elementaryPid) := by
  unfold NewPMT at h
  split at h
  · simp at h
  · split at h
    · exact parseTables_pids_map _ _ _ _ (le_refl _) (by simp) h
    · simp at h

/-- ReadPMT's accumulation loop (pmt.go lines 451-488) over a finite packet
source. The accumulator it drives is modelled from the spec (§4.1): each
write of a matching packet appends that packet's payload to the buffer and
runs the completion predicate on the whole buffer, signalling completion when
the predicate reports done. On completion the loop parses the buffer; a PMT
with an empty PID list restarts accumulation from a fresh (empty) buffer; an
exhausted source is the PMT-not-found error. -/
def readPMTAux : List GoPacket → Nat → List Nat → GoR Pmt
  | [], _, _ => .errv .errPMTNotFound
  | pkt :: rest, pid, buf =>
    if pkt.pid ≠ pid then readPMTAux rest pid buf
    else if (PmtAccumulatorDoneFunc (buf ++ pkt.payload)).1 then
      match NewPMT (buf ++ pkt.payload) with
      | .ok p => if p.pids.length = 0 then readPMTAux rest pid [] else .ok p
      | .errv e => .errv e
      | .crash => .crash
    else readPMTAux rest pid (buf ++ pkt.payload)

/-- ReadPMT (pmt.go lines 451-488): drive the accumulator over the source,
starting from an empty buffer. -/
def ReadPMT (pkts : List GoPacket) (pid : Nat) : GoR Pmt := readPMTAux pkts pid []

theorem readPMTAux_ok (pkts : List GoPacket) (pid : Nat) :
    ∀ (buf : List Nat) (p : Pmt), readPMTAux pkts pid buf = .ok p →
      p.elementaryStreams ≠ [] := by
  induction pkts with
  | nil => intro buf p h; simp [readPMTAux] at h
  | cons pkt rest ih =>
    intro buf p h
    rw [readPMTAux] at h
    split at h
    · exact ih _ _ h
    · split at h
      · split at h
        · next q heq =>
          split at h
          · exact ih _ _ h
          · next hlen =>
            injection h with h1
            subst h1
            intro hnil
            have hmap := NewPMT_pids_map _ _ heq
            rw [hnil] at hmap
            simp at hmap
            exact hlen (by simp [hmap])
        · simp at h
        · simp at h
      · exact ih _ _ h

theorem readPMTAux_exhausted (pkts : List GoPacket) (pid : Nat) :
    ∀ (buf : List Nat), (∀ pkt ∈ pkts, pkt.pid ≠ pid) →
      readPMTAux pkts pid buf = .errv .errPMTNotFound := by
  induction pkts with
  | nil => intro buf h; rfl
  | cons pkt rest ih =>
    intro buf h
    rw [readPMTAux, if_pos (h pkt (by simp))]
    exact ih _ (fun q hq => h q (by simp [hq]))

/-- C8: ReadPMT fails with the distinguished PMT-not-found error when the
source is exhausted before a PMT is assembled (in particular when no packet
carries the target PID), never returns a successful result whose PMT has zero
elementary streams, and on a completed accumulation that parses to a PMT with
no PIDs it discards the buffer and restarts with a fresh accumulator. -/
theorem c8_read_pmt_contract (pkts : List GoPacket) (pid : Nat) :
    (∀ p, ReadPMT pkts pid = .ok p → p.elementaryStreams ≠ [])
    ∧ ((∀ pkt ∈ pkts, pkt.pid ≠ pid) → ReadPMT pkts pid = .errv .errPMTNotFound)
    ∧ (∀ (pkt : GoPacket) (rest : List GoPacket) (buf : List Nat) (p0 : Pmt),
        pkt.pid = pid →
        (PmtAccumulatorDoneFunc (buf ++ pkt.payload)).1 = true →
        NewPMT (buf ++ pkt.payload) = .ok p0 → p0.pids = [] →
        readPMTAux (pkt :: rest) pid buf = readPMTAux rest pid []) := by
  refine ⟨fun p h => readPMTAux_ok pkts pid [] p h,
    fun h => readPMTAux_exhausted pkts pid [] h,
    fun pkt rest buf p0 hpid hdone hparse hempty => ?_⟩
  rw [readPMTAux, if_neg (fun hne => hne hpid), if_pos hdone, hparse]
  show (if p0.pids.length = 0 then readPMTAux rest pid [] else GoR.ok p0)
      = readPMTAux rest pid []
  rw [if_pos (by simp [hempty])]

theorem removeFirstStream_not_mem (q : Nat) (s : List PmtElementaryStream)
    (hn : (s.map (·.elementaryPid)).Nodup) :
    q ∉ (removeFirstStream q s).map (·.elementaryPid) := by
  induction s with
  | nil => simp [removeFirstStream]
  | cons a rest ih =>
    simp only [List.map_cons, List.nodup_cons] at hn
    by_cases ha : a.elementaryPid = q
    · rw [removeFirstStream, if_pos ha]
      rw [ha] at hn
      exact hn.1
    · rw [removeFirstStream, if_neg ha]
      simp only [List.map_cons, List.mem_cons]
      rintro (h1 | h1)
      · exact ha h1.symm
      · exact ih hn.2 h1

theorem removeFirstStream_no_op (q : Nat) (s : List PmtElementaryStream)
    (h : q ∉ s.map (·.elementaryPid)) :
    removeFirstStream q s = s := by
  induction s with
  | nil => rfl
  | cons a rest ih =>
    simp only [List.map_cons, List.mem_cons] at h
    rw [removeFirstStream, if_neg (fun ha => h (Or.inl ha.symm))]
    rw [ih (fun h1 => h (Or.inr h1))]

/-- C9 (amended with the duplicate-free hypothesis the source needs): when the
PMT's elementary PIDs contain no duplicates, removing a PID twice leaves the
PMT identical to its state after the first removal, and after the first
removal PIDExists is false and the PID appears neither in the PID list nor
among the elementary streams' PIDs. Without that hypothesis the property
fails: see the counterexample. -/
theorem c9_remove_idempotent (u : Pmt) (q : Nat)
    (hn : (u.elementaryStreams.map (·.elementaryPid)).Nodup) :
    (Pmt.RemoveElementaryStreams (Pmt.RemoveElementaryStreams u [q]) [q]
        = Pmt.RemoveElementaryStreams u [q])
    ∧ (Pmt.RemoveElementaryStreams u [q]).PIDExists q = false
    ∧ q ∉ (Pmt.RemoveElementaryStreams u [q]).pids
    ∧ ∀ e ∈ (Pmt.RemoveElementaryStreams u [q]).elementaryStreams,
        e.elementaryPid ≠ q := by
  have h1 := removeFirstStream_not_mem q u.elementaryStreams hn
  have h2 := removeFirstStream_no_op q (removeFirstStream q u.elementaryStreams) h1
  refine ⟨?_, ?_, ?_, ?_⟩
  · simp [Pmt.RemoveElementaryStreams, h2]
  · simp [Pmt.RemoveElementaryStreams, Pmt.PIDExists]
    simpa using h1
  · simp [Pmt.RemoveElementaryStreams]
    simpa using h1
  · intro e he hq
    simp [Pmt.RemoveElementaryStreams] at he
    have hm : e.elementaryPid
        ∈ (removeFirstStream q u.elementaryStreams).map (·.elementaryPid) :=
      List.mem_map_of_mem _ he
    rw [hq] at hm
    exact h1 hm

/-- Witness for C9 at a one-stream PMT with distinct PIDs. -/
theorem c9_remove_idempotent_witness :
    (Pmt.RemoveElementaryStreams
        (Pmt.RemoveElementaryStreams ⟨[0x65], [⟨0x1B, 0x65, []⟩], 1, true⟩ [0x65]) [0x65]
      = Pmt.RemoveElementaryStreams ⟨[0x65], [⟨0x1B, 0x65, []⟩], 1, true⟩ [0x65])
    ∧ (Pmt.RemoveElementaryStreams
        ⟨[0x65], [⟨0x1B, 0x65, []⟩], 1, true⟩ [0x65]).PIDExists 0x65 = false
    ∧ 0x65 ∉ (Pmt.RemoveElementaryStreams
        ⟨[0x65], [⟨0x1B, 0x65, []⟩], 1, true⟩ [0x65]).pids
    ∧ ∀ e ∈ (Pmt.RemoveElementaryStreams
        ⟨[0x65], [⟨0x1B, 0x65, []⟩], 1, true⟩ [0x65]).elementaryStreams,
        e.elementaryPid ≠ 0x65 :=
  c9_remove_idempotent ⟨[0x65], [⟨0x1B, 0x65, []⟩], 1, true⟩ 0x65 (by decide)

/-- Counterexample to C9 as stated: a PMT whose two elementary streams share
one PID is produced by the parser itself, and there removing that PID once
leaves PIDExists true, and the second removal is not a no-op. -/
theorem c9_counterexample :
    NewPMT (pmtBuf 1 true 1 0x65 [] [⟨0x1B, 0x65, []⟩, ⟨0x0F, 0x65, []⟩] ++ [])
      = .ok ⟨[0x65, 0x65], [⟨0x1B, 0x65, []⟩, ⟨0x0F, 0x65, []⟩], 1, true⟩
    ∧ (Pmt.RemoveElementaryStreams
        ⟨[0x65, 0x65], [⟨0x1B, 0x65, []⟩, ⟨0x0F, 0x65, []⟩], 1, true⟩ [0x65]).PIDExists 0x65
      = true
    ∧ Pmt.RemoveElementaryStreams
        (Pmt.RemoveElementaryStreams
          ⟨[0x65, 0x65], [⟨0x1B, 0x65, []⟩, ⟨0x0F, 0x65, []⟩], 1, true⟩ [0x65]) [0x65]
      ≠ Pmt.RemoveElementaryStreams
          ⟨[0x65, 0x65], [⟨0x1B, 0x65, []⟩, ⟨0x0F, 0x65, []⟩], 1, true⟩ [0x65] := by
  refine ⟨?_, by decide, by decide⟩
  have h := NewPMT_serialized 1 true 1 0x65 [] [⟨0x1B, 0x65, []⟩, ⟨0x0F, 0x65, []⟩] []
    (by decide) (by decide) (Or.inl (by decide))
  simpa using h
